import Mathlib

/-!
# httpbasicauth

A shallow embedding of `httpbasicauth.go`: the password-file loader
(`loadPasswords`), the credential check (`checkUserPassword`) and the request
gate (`Wrap`), followed by theorems about them.

Modelling conventions.

* A Go `string` is modelled by the list of its code points (`GoString`), so the
  development covers sources that are valid UTF-8 text.  `[]byte` is a list of
  bytes (`Bytes`), and `[]byte(s)` is the UTF-8 encoding `toBytes s`.
* `map[string][]byte` is a finite partial function (`PasswordMap`); a Go map has
  no iteration order and the code only indexes it.
* A Go result pair `(value, error)` is a Lean pair of options, `none` being `nil`.
* The reader handed to `loadPasswords` is modelled by the text it delivers
  before reporting end of file, as `strings.Reader` and a readable file do.
* Library code is modelled from its documentation: `unicode.IsSpace`,
  `strings.TrimSpace`, `strings.HasPrefix`, `strings.Fields`, and
  `bufio.Scanner` with its default `ScanLines` split function and its default
  token limit `bufio.MaxScanTokenSize`.
* `bcrypt.CompareHashAndPassword` is a parameter of the model (an oracle), and
  so is `os.Open` together with the text of the file it opens.
* Effects (log lines, calls on the response writer, calls of the oracle and of
  the wrapped handler) are recorded as a trace of calls, in program order.
  `respond` replays the calls on a response writer, with `http.Error` and the
  writer modelled from the documentation of `net/http`.
-/

namespace httpbasicauth

/-! ## Strings and bytes -/

/-- Go `string`, as the sequence of its code points. -/
abbrev GoString := List Char

/-- Go `[]byte`. -/
abbrev Bytes := List UInt8

/-- Conversion `[]byte(s)`: the UTF-8 bytes of `s`. -/
def toBytes (s : GoString) : Bytes :=
  s.flatMap String.utf8EncodeChar

/-- Builtin `len(s)` of a string: its length in bytes. -/
def byteLen (s : GoString) : Nat :=
  (s.map Char.utf8Size).sum

/-- Go `unicode.IsSpace`: in Latin-1 the characters tab, newline, vertical tab,
form feed, carriage return, space, U+0085 and U+00A0; beyond Latin-1 the
characters of the `White_Space` property. -/
def IsSpace (c : Char) : Bool :=
  let r := c.toNat
  if r ≤ 0xFF then
    r == 0x09 || r == 0x0A || r == 0x0B || r == 0x0C || r == 0x0D || r == 0x20 ||
      r == 0x85 || r == 0xA0
  else
    r == 0x1680 || (0x2000 ≤ r && r ≤ 0x200A) || r == 0x2028 || r == 0x2029 ||
      r == 0x202F || r == 0x205F || r == 0x3000

/-- Go `strings.TrimSpace`: all leading and trailing white space removed. -/
def TrimSpace (s : GoString) : GoString :=
  (s.dropWhile IsSpace).rdropWhile IsSpace

/-- Go `strings.HasPrefix`. -/
def HasPrefix (s pre : GoString) : Bool :=
  pre.isPrefixOf s

/-- Loop of `strings.FieldsFunc`: `cur` holds the characters of the field that
is open at the current position, most recent first (empty: no field is open). -/
def fieldsAux : GoString → GoString → List GoString
  | [], cur => if cur = [] then [] else [cur.reverse]
  | c :: cs, cur =>
    if IsSpace c then
      if cur = [] then fieldsAux cs [] else cur.reverse :: fieldsAux cs []
    else fieldsAux cs (c :: cur)

/-- Go `strings.Fields`: the maximal runs of non-space characters, in order. -/
def Fields (s : GoString) : List GoString :=
  fieldsAux s []

/-! ## bufio.Scanner -/

/-- Go `bufio.MaxScanTokenSize`: the size of the largest buffer a scanner
allocates by default. -/
def MaxScanTokenSize : Nat := 64 * 1024

/-- Text of `bufio.ErrTooLong`. -/
def ErrTooLong : String := "bufio.Scanner: token too long"

/-- The input cut at every newline: each newline ends a piece (the newline is
not part of it), and text after the last newline is a final piece when it is
not empty. -/
def splitNewline : GoString → List GoString
  | [] => []
  | c :: cs =>
    if c = '\n' then [] :: splitNewline cs
    else
      match splitNewline cs with
      | [] => [[c]]
      | l :: ls => (c :: l) :: ls

/-- Helper `dropCR` of `bufio.ScanLines`: one trailing carriage return is dropped. -/
def dropCR (data : GoString) : GoString :=
  if data.getLast? = some '\r' then data.dropLast else data

/-- What a scanner yields over its whole input: the tokens for which `Scan`
returned true, in order, and the value of `Err()` once `Scan` has returned false. -/
structure Scanner where
  tokens : List GoString
  err : Option String

/-- The scanner over the pieces that are left.  A piece that does not fit in
the buffer together with room for its newline (so one of `MaxScanTokenSize`
bytes or more) stops the scan with `ErrTooLong`; otherwise `ScanLines` yields
the piece without its trailing carriage return. -/
def scanPieces : List GoString → Scanner
  | [] => ⟨[], none⟩
  | raw :: rest =>
    if MaxScanTokenSize ≤ byteLen raw then ⟨[], some ErrTooLong⟩
    else ⟨dropCR raw :: (scanPieces rest).tokens, (scanPieces rest).err⟩

/-- Go `bufio.NewScanner(r)`, run to the end of the text `r` delivers. -/
def NewScanner (r : GoString) : Scanner :=
  scanPieces (splitNewline r)

/-! ## The password map -/

/-- Go `map[string][]byte`. -/
abbrev PasswordMap := GoString → Option Bytes

/-- The map literal `map[string][]byte{}`. -/
def PasswordMap.empty : PasswordMap := fun _ => none

/-- Map assignment `m[k] = v`. -/
def PasswordMap.set (m : PasswordMap) (k : GoString) (v : Bytes) : PasswordMap :=
  fun k' => if k' = k then some v else m k'

/-! ## loadPasswords -/

/-- Body of the `for scanner.Scan()` loop of `loadPasswords`, over the tokens
still to come.  `Except.error e` is the early `return nil, e`; `Except.ok ret`
is the map when the loop has run to the end. -/
def loadLoop : List GoString → Nat → PasswordMap → Except String PasswordMap
  | [], _, ret => .ok ret
  | text :: rest, lineno, ret =>
    let lineno := lineno + 1
    let line := TrimSpace text
    if HasPrefix line ['#'] then loadLoop rest lineno ret
    else
      let sp := Fields line
      match sp with
      | [sp0, sp1] =>
        match ret sp0 with
        | some _ => .error (toString lineno ++ ": duplicate user " ++ String.mk sp0)
        | none => loadLoop rest lineno (ret.set sp0 (toBytes sp1))
      | _ => .error (toString lineno ++ ": invalid line")

/-- Go `loadPasswords(r)`: the pair `(map, error)` it returns. -/
def loadPasswords (r : GoString) : Option PasswordMap × Option String :=
  let scanner := NewScanner r
  match loadLoop scanner.tokens 0 PasswordMap.empty with
  | .error e => (none, some e)
  | .ok ret =>
    match scanner.err with
    | some err => (none, some ("read error: " ++ err))
    | none => (some ret, none)

/-! ## BasicAuthenticator -/

/-- Go `BasicAuthenticator`.  The field `passwords` is `none` for a nil map. -/
structure BasicAuthenticator where
  passwordFile : GoString
  passwords : Option PasswordMap

/-- Map index `v, ok := m[k]` (`none`: not ok); a nil map has no keys. -/
def lookup (m : Option PasswordMap) (k : GoString) : Option Bytes :=
  match m with
  | none => none
  | some f => f k

/-- Go `NewBasicAuthenticatorFromReader(r)`: the pair `(*BasicAuthenticator, error)`. -/
def NewBasicAuthenticatorFromReader (r : GoString) :
    Option BasicAuthenticator × Option String :=
  match loadPasswords r with
  | (_, some err) => (none, some err)
  | (passwords, none) => (some ⟨[], passwords⟩, none)

/-- The errors `checkUserPassword` builds: `fmt.Errorf("no such user %q", username)`
and `fmt.Errorf("failed password for user %q", username)`. -/
inductive CheckError where
  | noSuchUser (username : GoString)
  | failedPassword (username : GoString)
  deriving DecidableEq, Repr

/-- Outcome of `checkUserPassword`: the error it returns (`none` is `nil`) and
the arguments of every call of `bcrypt.CompareHashAndPassword` it made. -/
structure CheckResult where
  err : Option CheckError
  compared : List (Bytes × Bytes)
  deriving DecidableEq

/-- Go `(*BasicAuthenticator).checkUserPassword`.  `CompareHashAndPassword` is the
bcrypt oracle: `none` is a `nil` error (the password matches the hash). -/
def checkUserPassword (CompareHashAndPassword : Bytes → Bytes → Option String)
    (ba : BasicAuthenticator) (username password : GoString) : CheckResult :=
  match lookup ba.passwords username with
  | none => ⟨some (.noSuchUser username), []⟩
  | some hashedPassword =>
    match CompareHashAndPassword hashedPassword (toBytes password) with
    | some _ =>
      ⟨some (.failedPassword username), [(hashedPassword, toBytes password)]⟩
    | none => ⟨none, [(hashedPassword, toBytes password)]⟩

/-! ## Wrap -/

/-- The part of `*http.Request` the gate uses: the URL (for the log), the result
of `r.BasicAuth()` (`some (username, password)` when it reports ok), and the
values attached to the request context, most recent first. -/
structure Request where
  URL : GoString
  BasicAuth : Option (GoString × GoString)
  Context : List (GoString × GoString)
  deriving DecidableEq

/-- Go `context.WithValue(ctx, key, val)`. -/
def WithValue (ctx : List (GoString × GoString)) (key val : GoString) :
    List (GoString × GoString) :=
  (key, val) :: ctx

/-- Go `ctx.Value(key)`: the most recently attached value under `key`. -/
def Value (ctx : List (GoString × GoString)) (key : GoString) : Option GoString :=
  match ctx with
  | [] => none
  | (k, v) :: rest => if k = key then some v else Value rest key

/-- Go `r.WithContext(ctx)`: a copy of the request with its context replaced. -/
def Request.WithContext (r : Request) (ctx : List (GoString × GoString)) : Request :=
  { r with Context := ctx }

/-- One effect of a handler, as the call that causes it.  `α` is whatever the
wrapped handler does when it is served a request. -/
inductive Effect (α : Type) where
  | logPrintln (operands : List GoString)
  | logPrintf (format : GoString) (url : GoString) (err : CheckError)
  | compareHashAndPassword (hashedPassword password : Bytes)
  | headerDel (key : GoString)
  | headerSet (key value : GoString)
  | writeHeader (code : Nat)
  | write (data : GoString)
  | serveHTTP (r : Request) (out : α)

/-- Go `http.StatusUnauthorized`. -/
def StatusUnauthorized : Nat := 401

/-- Go `http.Error(w, error, code)`: it deletes `Content-Length`, sets the content
type to plain text and `X-Content-Type-Options` to `nosniff`, writes the status
code and then the message followed by a newline (`fmt.Fprintln`). -/
def Error {α : Type} (error : GoString) (code : Nat) : List (Effect α) :=
  [.headerDel "Content-Length".toList,
   .headerSet "Content-Type".toList "text/plain; charset=utf-8".toList,
   .headerSet "X-Content-Type-Options".toList "nosniff".toList,
   .writeHeader code,
   .write (error ++ ['\n'])]

/-- The challenge header value the gate sends. -/
def challenge : GoString := "Basic realm=\"restricted\", charset=\"UTF-8\"".toList

/-- Go `(*BasicAuthenticator).Wrap(inner)` applied to a request: the effects of
the returned handler, in order.  The response writer the handler is given is
the one all `header…` and `write…` effects act on, and the one passed on to
`inner`. -/
def Wrap {α : Type} (CompareHashAndPassword : Bytes → Bytes → Option String)
    (ba : BasicAuthenticator) (inner : Request → α) (r : Request) : List (Effect α) :=
  match r.BasicAuth with
  | none =>
    [.logPrintln [r.URL, "no auth".toList],
     .headerSet "WWW-Authenticate".toList challenge]
      ++ Error "Unauthorized".toList StatusUnauthorized
  | some (username, password) =>
    let res := checkUserPassword CompareHashAndPassword ba username password
    res.compared.map (fun hp => .compareHashAndPassword hp.1 hp.2) ++
      match res.err with
      | some err =>
        [.logPrintf "%s bad auth: %v".toList r.URL err,
         .headerSet "WWW-Authenticate".toList challenge]
          ++ Error "Incorrect username/password".toList StatusUnauthorized
      | none =>
        let ctx := WithValue r.Context "user".toList username
        [.logPrintln [r.URL, "by".toList, username],
         .serveHTTP (r.WithContext ctx) (inner (r.WithContext ctx))]

/-- The requests on which a trace invokes the wrapped handler, in order. -/
def invocations {α : Type} : List (Effect α) → List Request
  | [] => []
  | .serveHTTP r _ :: rest => r :: invocations rest
  | _ :: rest => invocations rest

/-! ## The response writer -/

/-- Go `http.Header`, as far as the gate uses it: the values stored under each
key.  Keys are kept as the code writes them. -/
abbrev Header := GoString → List GoString

/-- Go `h.Set(key, value)`: the values under `key` are replaced by `value`. -/
def Header.Set (h : Header) (key value : GoString) : Header :=
  fun k => if k = key then [value] else h k

/-- Go `h.Del(key)`. -/
def Header.Del (h : Header) (key : GoString) : Header :=
  fun k => if k = key then [] else h k

/-- The response as the client receives it from an `http.ResponseWriter`: the
headers that are sent, the status code once it has been written, and the body. -/
structure ResponseWriter where
  header : Header
  status : Option Nat
  body : GoString

/-- The response writer of a request nothing has been written to yet. -/
def ResponseWriter.fresh : ResponseWriter := ⟨fun _ => [], none, []⟩

/-- Go `http.StatusOK`. -/
def StatusOK : Nat := 200

/-- The effect of one call on the response.  The header map only counts until
the status has been written; `WriteHeader` counts once; `Write` writes the
status `StatusOK` first when none has been written.  Logging, the oracle and the
call of the wrapped handler are not writes of the gate. -/
def Effect.apply {α : Type} : Effect α → ResponseWriter → ResponseWriter
  | .headerDel key, w =>
    match w.status with
    | none => { w with header := w.header.Del key }
    | some _ => w
  | .headerSet key value, w =>
    match w.status with
    | none => { w with header := w.header.Set key value }
    | some _ => w
  | .writeHeader code, w =>
    match w.status with
    | none => { w with status := some code }
    | some _ => w
  | .write data, w =>
    match w.status with
    | none => { w with status := some StatusOK, body := w.body ++ data }
    | some _ => { w with body := w.body ++ data }
  | _, w => w

/-- The response after the calls of a trace, in order, starting from `w`. -/
def respond {α : Type} : List (Effect α) → ResponseWriter → ResponseWriter
  | [], w => w
  | e :: rest, w => respond rest (e.apply w)

/-- The effect is a call on the response writer (header, status or body). -/
def Effect.isWrite {α : Type} : Effect α → Bool
  | .headerDel _ => true
  | .headerSet _ _ => true
  | .writeHeader _ => true
  | .write _ => true
  | _ => false

/-- The calls a trace makes on the response writer, in order. -/
def writes {α : Type} (trace : List (Effect α)) : List (Effect α) :=
  trace.filter Effect.isWrite

/-! ## Loading from a named file -/

/-- Go `loadPasswordsFromFile(passwordFile)`.  The parameter `osOpen` stands for
`os.Open` and the reads of the file: `Except.error err` when the file cannot be
opened, `Except.ok f` with the text of the file otherwise. -/
def loadPasswordsFromFile (osOpen : GoString → Except String GoString)
    (passwordFile : GoString) : Option PasswordMap × Option String :=
  match osOpen passwordFile with
  | .error err => (none, some err)
  | .ok f =>
    match loadPasswords f with
    | (_, some err) => (none, some (String.mk passwordFile ++ ":" ++ err))
    | (ret, none) => (ret, none)

/-- Go `NewBasicAuthenticatorFromFile(passwordFile)`. -/
def NewBasicAuthenticatorFromFile (osOpen : GoString → Except String GoString)
    (passwordFile : GoString) : Option BasicAuthenticator × Option String :=
  match loadPasswordsFromFile osOpen passwordFile with
  | (_, some err) => (none, some err)
  | (passwords, none) => (some ⟨passwordFile, passwords⟩, none)

/-! ## Vocabulary of the statements -/

/-- A line of the source is a comment: after trimming it starts with `#`. -/
def isComment (raw : GoString) : Bool :=
  HasPrefix (TrimSpace raw) ['#']

/-- The user name and hash of a line that is no comment and has exactly two
fields; `none` for every other line. -/
def entry? (raw : GoString) : Option (GoString × GoString) :=
  if isComment raw then none
  else
    match Fields (TrimSpace raw) with
    | [user, hash] => some (user, hash)
    | _ => none

/-- The line is one the loader accepts on its own: a comment, or two fields. -/
def wellFormed (raw : GoString) : Prop :=
  isComment raw = true ∨ (Fields (TrimSpace raw)).length = 2

/-- The (user, hash) pairs of the two-field lines among `pieces`, in order. -/
def entries (pieces : List GoString) : List (GoString × GoString) :=
  pieces.filterMap entry?

/-- The map after the assignments `ret[user] = []byte(hash)` for `es`, in order. -/
def assignAll (es : List (GoString × GoString)) (ret : PasswordMap) : PasswordMap :=
  es.foldl (fun m e => m.set e.1 (toBytes e.2)) ret

/-- The user names of the two-field lines among `pieces`, in order. -/
def users (pieces : List GoString) : List GoString :=
  (entries pieces).map Prod.fst

/-- The lines among `pieces` that are no comments, in order. -/
def nonComments (pieces : List GoString) : List GoString :=
  pieces.filter (fun raw => !isComment raw)

/-- The line fits the scanner: it is shorter than `MaxScanTokenSize` bytes. -/
def fits (raw : GoString) : Prop :=
  byteLen raw < MaxScanTokenSize

instance (raw : GoString) : Decidable (fits raw) := by
  unfold fits
  infer_instance

instance (raw : GoString) : Decidable (wellFormed raw) := by
  unfold wellFormed
  infer_instance

/-! ## Inputs of the test suite and other concrete inputs -/

/-- First bcrypt hash of `httpbasicauth_test.go`. -/
def hashA : GoString := "$2b$09$XDxv37mFio1MI0EnlFK2SOTrBL7BRYDOGw2nZnSbGibQ0TmxccvOm".toList

/-- Second bcrypt hash of `TestLoad`. -/
def hashB : GoString := "$2b$10$20zZVM2wu0Pw2AROUW/1V.l1gXZx/v0ezro53/fbZPrsE.gaBOmFe".toList

/-- Second bcrypt hash of `TestCheck`. -/
def hashC : GoString := "$2b$10$.T2oFl.3/LIDnakEaBKjbO25NLWlkczEpYkfvz0dbzVQZUQ1tZ4..".toList

/-- Input of `TestLoad`, one user, no trailing newline. -/
def srcOneUser : GoString := "user ".toList ++ hashA

/-- Input of `TestLoad`, duplicate user name with two different hashes. -/
def srcDuplicate : GoString :=
  "user ".toList ++ hashA ++ "\nuser ".toList ++ hashB ++ "\n".toList

/-- Input of `TestLoad`, two users. -/
def srcTwoUsers : GoString :=
  "user1 ".toList ++ hashA ++ "\nuser2 ".toList ++ hashB ++ "\n".toList

/-- Input of `TestCheck`. -/
def srcCheck : GoString :=
  "user1 ".toList ++ hashA ++ "\nuser2 ".toList ++ hashC

/-- The authenticator `TestCheck` builds. -/
def baCheck : BasicAuthenticator := ⟨[], (loadPasswords srcCheck).1⟩

/-- An oracle that accepts every password. -/
def acceptAll : Bytes → Bytes → Option String := fun _ _ => none

/-- An oracle that rejects every password. -/
def rejectAll : Bytes → Bytes → Option String :=
  fun _ _ => some "crypto/bcrypt: hashedPassword is not the hash of the given password"

/-- A comment line of 70000 bytes, followed by a valid line for one user. -/
def srcLongCommentThenUser : GoString :=
  ('#' :: List.replicate 69999 'x') ++ '\n' :: "user hash".toList

/-- A single comment line of 100000 bytes. -/
def srcLongComment : GoString :=
  '#' :: List.replicate 99999 'c'

/-- The line `user h`, then a second line for `user` whose hash field is 70000
bytes long. -/
def srcLongDuplicate : GoString :=
  "user h".toList ++ '\n' :: ("user ".toList ++ List.replicate (69999 + 1) 'h')

/-- A request without basic-auth credentials. -/
def reqNoAuth : Request := ⟨"/private".toList, none, []⟩

/-- A request with credentials for a user that is not in the store of `TestCheck`. -/
def reqNobody : Request := ⟨"/private".toList, some ("nobody".toList, "wrong".toList), []⟩

/-- A request with credentials for `user1` of `TestCheck`. -/
def reqUser1 : Request :=
  ⟨"/private".toList, some ("user1".toList, "you-cracked-it".toList), []⟩

/-- A wrapped handler that does nothing. -/
def innerNone : Request → Unit := fun _ => ()

/-- A file system with the single file `passwd`, which holds the two-user input
of `TestLoad`. -/
def osOpenPasswd : GoString → Except String GoString :=
  fun name =>
    if name = "passwd".toList then .ok srcTwoUsers
    else .error ("open " ++ String.mk name ++ ": no such file or directory")

/-- A file system with the single file `bad`, which holds a valid line followed
by a one-field line. -/
def osOpenBad : GoString → Except String GoString :=
  fun name =>
    if name = "bad".toList then .ok "a b\njunk\n".toList
    else .error ("open " ++ String.mk name ++ ": no such file or directory")

/-- A single line of 70000 spaces. -/
def srcLongBlank : GoString := List.replicate 70000 ' '

/-! ## Lemmas on the library functions -/

theorem isSpace_cr : IsSpace '\r' = true := by decide

theorem trimSpace_dropCR (raw : GoString) : TrimSpace (dropCR raw) = TrimSpace raw := by
  unfold dropCR
  split
  · next h =>
    obtain ⟨init, rfl⟩ : ∃ init, raw = init ++ ['\r'] := by
      rcases List.eq_nil_or_concat raw with h0 | ⟨init, x, rfl⟩
      · simp [h0] at h
      · simp at h
        exact ⟨init, by simp [h]⟩
    simp only [List.dropLast_concat, TrimSpace]
    rw [List.dropWhile_append]
    split
    · next hemp =>
      have : List.dropWhile IsSpace init = [] := by simpa using hemp
      simp [this, List.dropWhile, isSpace_cr, List.rdropWhile]
    · exact (List.rdropWhile_concat_pos _ _ _ isSpace_cr).symm
  · rfl

theorem splitNewline_append_newline (s : GoString) (hne : s ≠ [])
    (hlast : s.getLast? ≠ some '\n') : splitNewline (s ++ ['\n']) = splitNewline s := by
  induction s with
  | nil => exact absurd rfl hne
  | cons c cs ih =>
    cases cs with
    | nil =>
      have hc : c ≠ '\n' := by simpa using hlast
      simp [splitNewline, hc]
    | cons d ds =>
      have hlast2 : (d :: ds).getLast? ≠ some '\n' := by
        simpa [List.getLast?_cons_cons] using hlast
      have ih2 := ih (by simp) hlast2
      by_cases hc : c = '\n'
      · simp only [List.cons_append] at ih2 ⊢
        rw [splitNewline, if_pos hc, ih2, splitNewline.eq_2 c, if_pos hc]
      · simp only [List.cons_append] at ih2 ⊢
        rw [splitNewline, if_neg hc, ih2, splitNewline.eq_2 c, if_neg hc]

theorem byteLen_replicate (n : Nat) (c : Char) :
    byteLen (List.replicate n c) = n * c.utf8Size := by
  induction n with
  | zero => simp [byteLen]
  | succ n ih =>
    simp only [byteLen] at ih
    simp only [byteLen, List.replicate_succ, List.map_cons, List.sum_cons, ih]
    ring

theorem byteLen_cons (c : Char) (s : GoString) : byteLen (c :: s) = c.utf8Size + byteLen s := by
  simp [byteLen]

theorem splitNewline_line (l rest : GoString) (h : '\n' ∉ l) :
    splitNewline (l ++ '\n' :: rest) = l :: splitNewline rest := by
  induction l with
  | nil => simp [splitNewline]
  | cons c cs ih =>
    simp only [List.mem_cons, not_or] at h
    have hc : c ≠ '\n' := fun e => h.1 e.symm
    rw [List.cons_append, splitNewline, if_neg hc, ih h.2]

theorem splitNewline_last (l : GoString) (hne : l ≠ []) (h : '\n' ∉ l) :
    splitNewline l = [l] := by
  induction l with
  | nil => exact absurd rfl hne
  | cons c cs ih =>
    simp only [List.mem_cons, not_or] at h
    have hc : c ≠ '\n' := fun e => h.1 e.symm
    cases cs with
    | nil => simp [splitNewline, hc]
    | cons d ds => rw [splitNewline, if_neg hc, ih (by simp) h.2]

theorem rdropWhile_cons_neg (p : Char → Bool) (a : Char) (l : GoString) (h : p a = false) :
    List.rdropWhile p (a :: l) = a :: List.rdropWhile p l := by
  induction l using List.reverseRecOn with
  | nil => simp [List.rdropWhile, List.dropWhile, h]
  | append_singleton l x ih =>
    rw [← List.cons_append]
    by_cases hx : p x = true
    · rw [List.rdropWhile_concat_pos _ _ _ hx, List.rdropWhile_concat_pos _ _ _ hx, ih]
    · rw [List.rdropWhile_concat_neg _ _ _ hx, List.rdropWhile_concat_neg _ _ _ hx]
      rfl

theorem isComment_hash (rest : GoString) : isComment ('#' :: rest) = true := by
  have h : IsSpace '#' = false := by decide
  simp [isComment, TrimSpace, List.dropWhile, h, rdropWhile_cons_neg _ _ _ h, HasPrefix]

/-- A line `#ccc…c` with `n` copies of an ASCII character `c`: it contains no
newline, is a comment, and is `n + 1` bytes long. -/
theorem long_comment_line (n : Nat) (c : Char) (hc : c ≠ '\n') (hsize : c.utf8Size = 1) :
    '\n' ∉ ('#' :: List.replicate n c) ∧ isComment ('#' :: List.replicate n c) = true ∧
      entry? ('#' :: List.replicate n c) = none ∧
      byteLen ('#' :: List.replicate n c) = n + 1 := by
  refine ⟨?_, isComment_hash _, by simp [entry?, isComment_hash], ?_⟩
  · simp only [List.mem_cons, List.mem_replicate, not_or]
    exact ⟨by decide, fun h => hc h.2.symm⟩
  · have h1 : Char.utf8Size '#' = 1 := by decide
    rw [byteLen_cons, byteLen_replicate, h1, hsize]
    omega

theorem fieldsAux_run (n : Nat) (c : Char) (rest cur : GoString) (hc : IsSpace c = false) :
    fieldsAux (List.replicate n c ++ rest) cur = fieldsAux rest (List.replicate n c ++ cur) := by
  induction n generalizing cur with
  | zero => rfl
  | succ n ih =>
    rw [List.replicate_succ, List.cons_append, fieldsAux]
    simp only [hc, Bool.false_eq_true, if_false]
    rw [ih]
    congr 1
    have h := List.replicate_succ' (n := n) (a := c)
    rw [List.replicate_succ] at h
    calc List.replicate n c ++ c :: cur = (List.replicate n c ++ [c]) ++ cur := by simp
      _ = c :: List.replicate n c ++ cur := by rw [← h]

/-- A line `user hh…h` with `n + 1` copies of `h`: it contains no newline, has
the two fields `user` and `hh…h`, and is `n + 6` bytes long. -/
theorem long_user_line (n : Nat) :
    '\n' ∉ ("user ".toList ++ List.replicate (n + 1) 'h') ∧
      entry? ("user ".toList ++ List.replicate (n + 1) 'h')
        = some ("user".toList, List.replicate (n + 1) 'h') ∧
      byteLen ("user ".toList ++ List.replicate (n + 1) 'h') = n + 6 := by
  have hh : IsSpace 'h' = false := by decide
  have hu : IsSpace 'u' = false := by decide
  have htrim : TrimSpace ("user ".toList ++ List.replicate (n + 1) 'h')
      = "user ".toList ++ List.replicate (n + 1) 'h' := by
    have h1 : List.dropWhile IsSpace ("user ".toList ++ List.replicate (n + 1) 'h')
        = "user ".toList ++ List.replicate (n + 1) 'h' := by
      show List.dropWhile IsSpace ('u' :: ("ser ".toList ++ List.replicate (n + 1) 'h')) = _
      rw [List.dropWhile_cons_of_neg (by simp [hu])]
      rfl
    rw [TrimSpace, h1, List.replicate_succ', ← List.append_assoc]
    exact List.rdropWhile_concat_neg _ _ _ (by simp [hh])
  have hfields : Fields ("user ".toList ++ List.replicate (n + 1) 'h')
      = ["user".toList, List.replicate (n + 1) 'h'] := by
    have h5 : ∀ rest : GoString, fieldsAux ("user ".toList ++ rest) []
        = "user".toList :: fieldsAux rest [] := by
      intro rest
      have e1 : IsSpace 'u' = false := by decide
      have e2 : IsSpace 's' = false := by decide
      have e3 : IsSpace 'e' = false := by decide
      have e4 : IsSpace 'r' = false := by decide
      have e5 : IsSpace ' ' = true := by decide
      show fieldsAux ('u' :: 's' :: 'e' :: 'r' :: ' ' :: rest) [] = _
      simp only [fieldsAux, e1, e2, e3, e4, e5, Bool.false_eq_true, if_false, if_true]
      rfl
    rw [Fields, h5]
    have h6 := fieldsAux_run (n + 1) 'h' [] [] hh
    rw [List.append_nil] at h6
    rw [h6, fieldsAux]
    simp
  refine ⟨?_, ?_, ?_⟩
  · intro hmem
    rcases List.mem_append.mp hmem with h | h
    · exact absurd h (by decide)
    · exact absurd (List.eq_of_mem_replicate h) (by decide)
  · have hc : isComment ("user ".toList ++ List.replicate (n + 1) 'h') = false := by
      rw [isComment, htrim]
      rfl
    rw [entry?, hc, htrim, hfields]
    rfl
  · have h1 : byteLen ("user ".toList ++ List.replicate (n + 1) 'h')
        = byteLen "user ".toList + byteLen (List.replicate (n + 1) 'h') := by
      simp only [byteLen, List.map_append, List.sum_append]
    have h2 : byteLen "user ".toList = 5 := by decide
    have h3 : Char.utf8Size 'h' = 1 := by decide
    rw [h1, h2, byteLen_replicate, h3]
    omega

theorem trimSpace_blank (raw : GoString) (h : ∀ c ∈ raw, IsSpace c = true) :
    TrimSpace raw = [] := by
  have h1 : raw.dropWhile IsSpace = [] := by
    rw [List.dropWhile_eq_nil_iff]
    exact h
  simp [TrimSpace, h1, List.rdropWhile]

theorem not_wellFormed_blank (raw : GoString) (h : ∀ c ∈ raw, IsSpace c = true) :
    ¬ wellFormed raw := by
  simp [wellFormed, isComment, trimSpace_blank raw h, HasPrefix, Fields, fieldsAux]

/-! ## Lemmas on the scanner -/

theorem scanPieces_append (pre rest : List GoString) (hfit : ∀ raw ∈ pre, fits raw) :
    (scanPieces (pre ++ rest)).tokens = pre.map dropCR ++ (scanPieces rest).tokens ∧
      (scanPieces (pre ++ rest)).err = (scanPieces rest).err := by
  induction pre with
  | nil => simp
  | cons raw pre ih =>
    have h1 : ¬ MaxScanTokenSize ≤ byteLen raw := by
      have := hfit raw (by simp)
      unfold fits at this
      omega
    have ih2 := ih (fun r hr => hfit r (by simp [hr]))
    rw [List.cons_append, scanPieces, if_neg h1, List.map_cons]
    exact ⟨by simp [ih2.1], ih2.2⟩

theorem scanPieces_fits (pieces : List GoString) (hfit : ∀ raw ∈ pieces, fits raw) :
    (scanPieces pieces).tokens = pieces.map dropCR ∧ (scanPieces pieces).err = none := by
  have h := scanPieces_append pieces [] hfit
  simpa [scanPieces] using h

theorem scanPieces_tooLong (pre rest : List GoString) (raw : GoString)
    (hfit : ∀ r ∈ pre, fits r) (hlong : ¬ fits raw) :
    (scanPieces (pre ++ raw :: rest)).tokens = pre.map dropCR ∧
      (scanPieces (pre ++ raw :: rest)).err = some ErrTooLong := by
  have h := scanPieces_append pre (raw :: rest) hfit
  have h1 : MaxScanTokenSize ≤ byteLen raw := by
    unfold fits at hlong
    omega
  simpa [scanPieces, h1] using h

theorem fits_of_err_none (pieces : List GoString) (h : (scanPieces pieces).err = none) :
    ∀ raw ∈ pieces, fits raw := by
  induction pieces with
  | nil => simp
  | cons raw rest ih =>
    by_cases h1 : MaxScanTokenSize ≤ byteLen raw
    · simp [scanPieces, h1] at h
    · simp only [scanPieces, if_neg h1] at h
      intro r hr
      rcases List.mem_cons.mp hr with rfl | hr
      · unfold fits
        omega
      · exact ih h r hr

/-! ## Lemmas on the loop of loadPasswords -/

theorem loadLoop_comment (raw : GoString) (rest : List GoString) (n : Nat)
    (ret : PasswordMap) (h : isComment raw = true) :
    loadLoop (dropCR raw :: rest) n ret = loadLoop rest (n + 1) ret := by
  unfold isComment at h
  rw [loadLoop]
  simp only [trimSpace_dropCR, h, if_true]

theorem loadLoop_entry_new (raw : GoString) (rest : List GoString) (n : Nat)
    (ret : PasswordMap) (user hash : GoString) (h : entry? raw = some (user, hash))
    (hnew : ret user = none) :
    loadLoop (dropCR raw :: rest) n ret
      = loadLoop rest (n + 1) (ret.set user (toBytes hash)) := by
  unfold entry? at h
  split at h
  · exact absurd h (by simp)
  · next hc =>
    unfold isComment at hc
    rw [loadLoop]
    simp only [trimSpace_dropCR, hc]
    split at h <;> simp_all

theorem loadLoop_entry_dup (raw : GoString) (rest : List GoString) (n : Nat)
    (ret : PasswordMap) (user hash : GoString) (old : Bytes)
    (h : entry? raw = some (user, hash)) (hold : ret user = some old) :
    loadLoop (dropCR raw :: rest) n ret
      = .error (toString (n + 1) ++ ": duplicate user " ++ String.mk user) := by
  unfold entry? at h
  split at h
  · exact absurd h (by simp)
  · next hc =>
    unfold isComment at hc
    rw [loadLoop]
    simp only [trimSpace_dropCR, hc]
    split at h <;> simp_all

theorem loadLoop_malformed (raw : GoString) (rest : List GoString) (n : Nat)
    (ret : PasswordMap) (h : ¬ wellFormed raw) :
    loadLoop (dropCR raw :: rest) n ret = .error (toString (n + 1) ++ ": invalid line") := by
  unfold wellFormed at h
  push_neg at h
  obtain ⟨hc, hlen⟩ := h
  unfold isComment at hc
  have hc2 : HasPrefix (TrimSpace raw) ['#'] = false := by simpa using hc
  rw [loadLoop]
  simp only [trimSpace_dropCR, hc2, Bool.false_eq_true, if_false]
  split
  · next heq => simp [heq] at hlen
  · rfl

theorem wellFormed_cases (raw : GoString) (h : wellFormed raw) :
    (isComment raw = true ∧ entry? raw = none) ∨
      ∃ user hash, isComment raw = false ∧ Fields (TrimSpace raw) = [user, hash] ∧
        entry? raw = some (user, hash) := by
  by_cases hc : isComment raw = true
  · exact Or.inl ⟨hc, by simp [entry?, hc]⟩
  · rcases h with h | h
    · exact absurd h hc
    · right
      match hf : Fields (TrimSpace raw), h with
      | [user, hash], _ => exact ⟨user, hash, by simpa using hc, rfl, by simp [entry?, hc, hf]⟩

theorem assignAll_cons (e : GoString × GoString) (es : List (GoString × GoString))
    (ret : PasswordMap) :
    assignAll (e :: es) ret = assignAll es (ret.set e.1 (toBytes e.2)) := rfl

theorem assignAll_not_mem (es : List (GoString × GoString)) (ret : PasswordMap)
    (k : GoString) (hk : k ∉ es.map Prod.fst) : assignAll es ret k = ret k := by
  induction es generalizing ret with
  | nil => rfl
  | cons e es ih =>
    simp only [List.map_cons, List.mem_cons, not_or] at hk
    rw [assignAll_cons, ih _ hk.2]
    simp [PasswordMap.set, hk.1]

theorem assignAll_mem (es : List (GoString × GoString)) (ret : PasswordMap)
    (hnd : (es.map Prod.fst).Nodup) (user hash : GoString) (hmem : (user, hash) ∈ es) :
    assignAll es ret user = some (toBytes hash) := by
  induction es generalizing ret with
  | nil => simp at hmem
  | cons e es ih =>
    simp only [List.map_cons, List.nodup_cons] at hnd
    rw [assignAll_cons]
    rcases List.mem_cons.mp hmem with heq | hin
    · subst heq
      rw [assignAll_not_mem _ _ _ hnd.1]
      simp [PasswordMap.set]
    · exact ih _ hnd.2 hin

theorem assignAll_isSome (es : List (GoString × GoString)) (k : GoString)
    (hnd : (es.map Prod.fst).Nodup) :
    (assignAll es PasswordMap.empty k).isSome = true ↔ k ∈ es.map Prod.fst := by
  constructor
  · intro h
    by_contra hk
    rw [assignAll_not_mem _ _ _ hk] at h
    simp [PasswordMap.empty] at h
  · intro h
    obtain ⟨⟨u, hash⟩, hmem, rfl⟩ := List.mem_map.mp h
    rw [assignAll_mem es _ hnd u hash hmem]
    rfl

theorem entries_cons_none (raw : GoString) (rest : List GoString) (h : entry? raw = none) :
    entries (raw :: rest) = entries rest := by
  simp [entries, List.filterMap_cons, h]

theorem entries_cons_some (raw : GoString) (rest : List GoString) (e : GoString × GoString)
    (h : entry? raw = some e) : entries (raw :: rest) = e :: entries rest := by
  simp [entries, List.filterMap_cons, h]

/-- The loop over a prefix of lines that are all accepted: it reaches the rest
of the input with the line counter advanced and every entry assigned. -/
theorem loadLoop_accepted (pre : List GoString) (rest : List GoString) (n : Nat)
    (ret : PasswordMap) (hwf : ∀ raw ∈ pre, wellFormed raw) (hnd : (users pre).Nodup)
    (hfresh : ∀ u ∈ users pre, ret u = none) :
    loadLoop (pre.map dropCR ++ rest) n ret
      = loadLoop rest (n + pre.length) (assignAll (entries pre) ret) := by
  induction pre generalizing n ret with
  | nil => simp [entries, assignAll]
  | cons raw pre ih =>
    have hwf2 : ∀ r ∈ pre, wellFormed r := fun r hr => hwf r (by simp [hr])
    rcases wellFormed_cases raw (hwf raw (by simp)) with ⟨hc, he⟩ | ⟨user, hash, _, _, he⟩
    · have hent := entries_cons_none raw pre he
      simp only [users, hent] at hnd hfresh
      rw [List.map_cons, List.cons_append, loadLoop_comment _ _ _ _ hc, hent,
        ih (n + 1) ret hwf2 hnd hfresh, List.length_cons]
      congr 1
      omega
    · have hent := entries_cons_some raw pre _ he
      simp only [users, hent, List.map_cons, List.nodup_cons, List.mem_cons] at hnd hfresh
      have hnew : ret user = none := hfresh user (Or.inl rfl)
      have hfresh2 : ∀ u ∈ users pre, (ret.set user (toBytes hash)) u = none := by
        intro u hu
        have hne : u ≠ user := fun h => hnd.1 (h ▸ hu)
        simpa [PasswordMap.set, hne] using hfresh u (Or.inr hu)
      rw [List.map_cons, List.cons_append, loadLoop_entry_new _ _ _ _ _ _ he hnew, hent,
        assignAll_cons, ih (n + 1) _ hwf2 hnd.2 hfresh2, List.length_cons]
      congr 1
      omega

/-- A loop that runs to the end has seen accepted lines only, with pairwise
distinct user names that were not in the map before. -/
theorem loadLoop_ok_inv (pieces : List GoString) (n : Nat) (ret ret2 : PasswordMap)
    (h : loadLoop (pieces.map dropCR) n ret = .ok ret2) :
    (∀ raw ∈ pieces, wellFormed raw) ∧ (users pieces).Nodup ∧
      ∀ u ∈ users pieces, ret u = none := by
  induction pieces generalizing n ret with
  | nil => simp [users, entries]
  | cons raw rest ih =>
    rw [List.map_cons] at h
    by_cases hwf : wellFormed raw
    · rcases wellFormed_cases raw hwf with ⟨hc, he⟩ | ⟨user, hash, _, _, he⟩
      · rw [loadLoop_comment _ _ _ _ hc] at h
        obtain ⟨h1, h2, h3⟩ := ih _ _ h
        have hent := entries_cons_none raw rest he
        refine ⟨?_, by simpa [users, hent] using h2, by simpa [users, hent] using h3⟩
        intro r hr
        rcases List.mem_cons.mp hr with rfl | hr
        · exact hwf
        · exact h1 r hr
      · cases hold : ret user with
        | some old =>
          rw [loadLoop_entry_dup _ _ _ _ _ _ old he hold] at h
          exact absurd h (by simp)
        | none =>
          rw [loadLoop_entry_new _ _ _ _ _ _ he hold] at h
          obtain ⟨h1, h2, h3⟩ := ih _ _ h
          have hent := entries_cons_some raw rest _ he
          have hnot : user ∉ users rest := by
            intro hu
            have := h3 user hu
            simp [PasswordMap.set] at this
          refine ⟨?_, ?_, ?_⟩
          · intro r hr
            rcases List.mem_cons.mp hr with rfl | hr
            · exact hwf
            · exact h1 r hr
          · simp only [users, hent, List.map_cons, List.nodup_cons]
            exact ⟨hnot, h2⟩
          · intro u hu
            simp only [users, hent, List.map_cons, List.mem_cons] at hu
            rcases hu with rfl | hu
            · exact hold
            · have hne : u ≠ user := fun h => hnot (h ▸ hu)
              simpa [PasswordMap.set, hne] using h3 u hu
    · rw [loadLoop_malformed _ _ _ _ hwf] at h
      exact absurd h (by simp)

/-! ## Lemmas on loadPasswords -/

theorem loadPasswords_success (src : GoString) (hfit : ∀ raw ∈ splitNewline src, fits raw)
    (hwf : ∀ raw ∈ splitNewline src, wellFormed raw) (hnd : (users (splitNewline src)).Nodup) :
    loadPasswords src
      = (some (assignAll (entries (splitNewline src)) PasswordMap.empty), none) := by
  obtain ⟨htok, herr⟩ := scanPieces_fits _ hfit
  have hloop := loadLoop_accepted (splitNewline src) [] 0 PasswordMap.empty hwf hnd
    (fun _ _ => rfl)
  rw [List.append_nil] at hloop
  simp only [loadPasswords, NewScanner, htok, herr, hloop, loadLoop]

theorem loadPasswords_ok_inv (src : GoString) (h : (loadPasswords src).2 = none) :
    (∀ raw ∈ splitNewline src, fits raw) ∧ (∀ raw ∈ splitNewline src, wellFormed raw) ∧
      (users (splitNewline src)).Nodup := by
  unfold loadPasswords NewScanner at h
  simp only at h
  split at h
  · simp at h
  · next ret hloop =>
    split at h
    · simp at h
    · next herr =>
      have hfit := fits_of_err_none _ herr
      rw [(scanPieces_fits _ hfit).1] at hloop
      obtain ⟨h1, h2, _⟩ := loadLoop_ok_inv _ _ _ _ hloop
      exact ⟨hfit, h1, h2⟩

theorem loadPasswords_error_nil (src : GoString) (h : (loadPasswords src).2 ≠ none) :
    (loadPasswords src).1 = none := by
  unfold loadPasswords at h ⊢
  cases hloop : loadLoop (NewScanner src).tokens 0 PasswordMap.empty <;>
    cases herr : (NewScanner src).err <;> simp_all

theorem loadPasswords_tooLong (src : GoString) (pre rest : List GoString) (raw : GoString)
    (hsplit : splitNewline src = pre ++ raw :: rest)
    (hfit : ∀ r ∈ pre, fits r) (hwf : ∀ r ∈ pre, wellFormed r) (hnd : (users pre).Nodup)
    (hlong : ¬ fits raw) :
    loadPasswords src = (none, some ("read error: " ++ ErrTooLong)) := by
  obtain ⟨htok, herr⟩ := scanPieces_tooLong pre rest raw hfit hlong
  have hloop := loadLoop_accepted pre [] 0 PasswordMap.empty hwf hnd (fun _ _ => rfl)
  rw [List.append_nil] at hloop
  simp only [loadPasswords, NewScanner, hsplit, htok, herr, hloop, loadLoop]

theorem loadPasswords_duplicate (src : GoString) (pre rest : List GoString)
    (raw user hash : GoString) (hsplit : splitNewline src = pre ++ raw :: rest)
    (hfit : ∀ r ∈ pre, fits r) (hwf : ∀ r ∈ pre, wellFormed r) (hnd : (users pre).Nodup)
    (hraw : fits raw) (he : entry? raw = some (user, hash)) (hdup : user ∈ users pre) :
    loadPasswords src
      = (none, some (toString (pre.length + 1) ++ ": duplicate user " ++ String.mk user)) := by
  have hfit2 : ∀ r ∈ pre ++ [raw], fits r := by
    intro r hr
    rcases List.mem_append.mp hr with hr | hr
    · exact hfit r hr
    · simp at hr
      exact hr ▸ hraw
  obtain ⟨htok, _⟩ := scanPieces_append (pre ++ [raw]) rest hfit2
  have htok2 : (scanPieces (pre ++ raw :: rest)).tokens
      = pre.map dropCR ++ dropCR raw :: (scanPieces rest).tokens := by
    simpa using htok
  have hloop := loadLoop_accepted pre (dropCR raw :: (scanPieces rest).tokens) 0
    PasswordMap.empty hwf hnd (fun _ _ => rfl)
  obtain ⟨⟨u, old⟩, hmem, hu⟩ := List.mem_map.mp hdup
  simp only at hu
  subst hu
  have hold := assignAll_mem (entries pre) PasswordMap.empty hnd u old hmem
  rw [loadLoop_entry_dup _ _ _ _ _ _ _ he hold] at hloop
  simp only [loadPasswords, NewScanner, hsplit, htok2, hloop, Nat.zero_add]

theorem invocations_compare {α : Type} (calls : List (Bytes × Bytes)) (rest : List (Effect α)) :
    invocations (calls.map (fun hp => Effect.compareHashAndPassword hp.1 hp.2) ++ rest)
      = invocations rest := by
  induction calls with
  | nil => rfl
  | cons c cs ih => simpa [invocations] using ih

theorem invocations_error {α : Type} (msg : GoString) (code : Nat) :
    invocations (Error msg code : List (Effect α)) = [] := rfl

/-! ## The claims -/

/-- Claim C1: for every store, wrapped handler and request, the handler returned
by `Wrap` invokes the inner handler exactly once when the request carries
basic-auth credentials that `checkUserPassword` accepts (returns nil for), and
does not invoke it at all in every other case. -/
theorem wrap_invokes_inner_iff_accepted {α : Type}
    (CompareHashAndPassword : Bytes → Bytes → Option String) (ba : BasicAuthenticator)
    (inner : Request → α) (r : Request) :
    ((invocations (Wrap CompareHashAndPassword ba inner r)).length = 1 ↔
        ∃ user pass, r.BasicAuth = some (user, pass) ∧
          (checkUserPassword CompareHashAndPassword ba user pass).err = none) ∧
      ((invocations (Wrap CompareHashAndPassword ba inner r)).length = 0 ↔
        ¬ ∃ user pass, r.BasicAuth = some (user, pass) ∧
          (checkUserPassword CompareHashAndPassword ba user pass).err = none) := by
  unfold Wrap
  cases hb : r.BasicAuth with
  | none => simp [invocations, invocations_error]
  | some up =>
    obtain ⟨user, pass⟩ := up
    simp only [invocations_compare]
    cases herr : (checkUserPassword CompareHashAndPassword ba user pass).err with
    | none =>
      simp only [invocations, List.length_singleton, Option.some.injEq, Prod.mk.injEq,
        true_iff, one_ne_zero, false_iff, not_not]
      exact ⟨⟨user, pass, ⟨rfl, rfl⟩, herr⟩, ⟨user, pass, ⟨rfl, rfl⟩, herr⟩⟩
    | some e => simp [invocations, invocations_error, herr]

/-- Claim C2, as stated, fails: a source whose lines are all comments or
two-field lines with distinct user names (here a comment line of 70000 bytes
followed by the line `user hash`) is refused with a read error, because the
scanner does not yield a line of `MaxScanTokenSize` bytes or more. -/
theorem load_well_formed_long_line_fails :
    (∀ raw ∈ splitNewline srcLongCommentThenUser, wellFormed raw) ∧
      (users (splitNewline srcLongCommentThenUser)).Nodup ∧
      loadPasswords srcLongCommentThenUser
        = (none, some "read error: bufio.Scanner: token too long") := by
  obtain ⟨hnl, hcom, hnone, hlen⟩ := long_comment_line 69999 'x' (by decide) (by decide)
  have hsplit : splitNewline srcLongCommentThenUser
      = ('#' :: List.replicate 69999 'x') :: ["user hash".toList] :=
    splitNewline_line ('#' :: List.replicate 69999 'x') "user hash".toList hnl
  have huser : wellFormed "user hash".toList := by decide
  have huser2 : entry? "user hash".toList = some ("user".toList, "hash".toList) := by decide
  generalize ('#' :: List.replicate 69999 'x') = long at hnl hcom hnone hlen hsplit
  refine ⟨?_, ?_, ?_⟩
  · intro raw hraw
    rw [hsplit] at hraw
    simp only [List.mem_cons, List.mem_singleton, List.not_mem_nil, or_false] at hraw
    rcases hraw with rfl | rfl
    · exact Or.inl hcom
    · exact huser
  · rw [hsplit, users, entries_cons_none _ _ hnone, entries_cons_some _ _ _ huser2]
    simp [entries]
  · have hlong : ¬ fits long := by
      unfold fits MaxScanTokenSize
      omega
    exact loadPasswords_tooLong _ [] _ _ hsplit (by simp) (by simp) (by simp [users, entries])
      hlong

/-- Claim C2, amended: for every source in which every line is shorter than
65536 bytes and, after trimming white space, either starts with `#` or splits
into exactly two fields, and in which the first fields of the non-comment lines
are pairwise distinct, `loadPasswords` returns no error and a map whose keys are
exactly those first fields, each mapped to the bytes of the second field of its
line, whatever that field is. -/
theorem load_well_formed (src : GoString)
    (hfit : ∀ raw ∈ splitNewline src, fits raw)
    (hwf : ∀ raw ∈ splitNewline src, wellFormed raw)
    (hnd : (users (splitNewline src)).Nodup) :
    ∃ m : PasswordMap, loadPasswords src = (some m, none) ∧
      (∀ k, (m k).isSome = true ↔ k ∈ users (splitNewline src)) ∧
      ∀ user hash, (user, hash) ∈ entries (splitNewline src) →
        m user = some (toBytes hash) :=
  ⟨assignAll (entries (splitNewline src)) PasswordMap.empty,
    loadPasswords_success src hfit hwf hnd,
    fun k => assignAll_isSome _ k hnd,
    fun user hash hmem => assignAll_mem _ _ hnd user hash hmem⟩

set_option maxRecDepth 100000 in
/-- Witness for claim C2: the two-user input of `TestLoad` meets the hypotheses. -/
theorem load_well_formed_witness :
    (∀ raw ∈ splitNewline srcTwoUsers, fits raw) ∧
      (∀ raw ∈ splitNewline srcTwoUsers, wellFormed raw) ∧
      (users (splitNewline srcTwoUsers)).Nodup ∧
      ∃ m : PasswordMap, loadPasswords srcTwoUsers = (some m, none) ∧
        (∀ k, (m k).isSome = true ↔ k ∈ users (splitNewline srcTwoUsers)) ∧
        ∀ user hash, (user, hash) ∈ entries (splitNewline srcTwoUsers) →
          m user = some (toBytes hash) :=
  ⟨by decide, by decide, by decide,
    load_well_formed srcTwoUsers (by decide) (by decide) (by decide)⟩

/-- Claim C3: for every source that contains a non-comment line whose number of
white-space separated fields is not exactly two, `loadPasswords` returns an error. -/
theorem load_wrong_field_count (src : GoString)
    (h : ∃ raw ∈ splitNewline src,
      isComment raw = false ∧ (Fields (TrimSpace raw)).length ≠ 2) :
    (loadPasswords src).2 ≠ none := by
  intro hok
  obtain ⟨raw, hmem, hc, hlen⟩ := h
  rcases (loadPasswords_ok_inv src hok).2.1 raw hmem with hw | hw
  · simp [hc] at hw
  · exact hlen hw

set_option maxRecDepth 100000 in
/-- Witness for claim C3: the inputs `junk` (one field) and `junk trash garbage`
(three fields) of `TestLoad`, and a one-field line after a valid line. -/
theorem load_wrong_field_count_witness :
    (∃ raw ∈ splitNewline "junk trash garbage".toList,
        isComment raw = false ∧ (Fields (TrimSpace raw)).length ≠ 2) ∧
      (loadPasswords "junk trash garbage".toList).2 ≠ none ∧
      (loadPasswords "junk".toList).2 = some "1: invalid line" ∧
      (loadPasswords "a b\njunk\n".toList).2 = some "2: invalid line" :=
  ⟨by decide, load_wrong_field_count "junk trash garbage".toList (by decide), by decide,
    by decide⟩

/-- Claim C4, as stated, fails in its second half: in the source `user h`
followed by a second line for `user` with a hash field of 70000 bytes, both
lines are two-field lines with the same user name and the second is the first
line at which loading stops, yet the error is the scanner's read error, which
names neither the line number nor the user. -/
theorem load_duplicate_user_long_line_fails :
    splitNewline srcLongDuplicate
        = ["user h".toList, "user ".toList ++ List.replicate (69999 + 1) 'h'] ∧
      fits "user h".toList ∧
      entry? "user h".toList = some ("user".toList, "h".toList) ∧
      entry? ("user ".toList ++ List.replicate (69999 + 1) 'h')
        = some ("user".toList, List.replicate (69999 + 1) 'h') ∧
      loadPasswords srcLongDuplicate
        = (none, some "read error: bufio.Scanner: token too long") := by
  obtain ⟨hnl, hent, hlen⟩ := long_user_line 69999
  have hfirst : entry? "user h".toList = some ("user".toList, "h".toList) := by decide
  have hfit : fits "user h".toList := by decide
  have hwf : wellFormed "user h".toList := by decide
  have hsplit : splitNewline srcLongDuplicate
      = ["user h".toList, "user ".toList ++ List.replicate (69999 + 1) 'h'] := by
    rw [srcLongDuplicate, splitNewline_line _ _ (by decide),
      splitNewline_last _ (by exact List.cons_ne_nil _ _) hnl]
  generalize ("user ".toList ++ List.replicate (69999 + 1) 'h') = long at hnl hent hlen hsplit
  refine ⟨hsplit, hfit, hfirst, hent, ?_⟩
  have hlong : ¬ fits long := by
    unfold fits MaxScanTokenSize
    omega
  refine loadPasswords_tooLong _ ["user h".toList] [] long hsplit ?_ ?_ ?_ hlong
  · intro r hr
    rw [List.mem_singleton.mp hr]
    exact hfit
  · intro r hr
    rw [List.mem_singleton.mp hr]
    exact hwf
  · rw [users, entries_cons_some _ _ _ hfirst]
    simp [entries]

/-- Claim C4, amended: for every source in which two non-comment two-field
lines have the same user name, whatever their hashes, `loadPasswords` returns an
error and no map; and when the later of two such lines is the first offending
line and is shorter than 65536 bytes (every line before it is shorter than 65536
bytes and is a comment or has two fields, and the user names before it are
pairwise distinct), the error is `<n>: duplicate user <name>` with `n` the
1-based number of that line and `name` the duplicate user name. -/
theorem load_duplicate_user (src : GoString) (h : ¬ (users (splitNewline src)).Nodup) :
    (loadPasswords src).2 ≠ none ∧ (loadPasswords src).1 = none ∧
      ∀ (pre post : List GoString) (raw user hash : GoString),
        splitNewline src = pre ++ raw :: post →
        (∀ r ∈ pre, fits r) → (∀ r ∈ pre, wellFormed r) → (users pre).Nodup →
        fits raw → entry? raw = some (user, hash) → user ∈ users pre →
        loadPasswords src
          = (none, some (toString (pre.length + 1) ++ ": duplicate user " ++ String.mk user)) := by
  have herr : (loadPasswords src).2 ≠ none := fun hok => h (loadPasswords_ok_inv src hok).2.2
  exact ⟨herr, loadPasswords_error_nil src herr,
    fun pre post raw user hash hsplit hfit hwf hnd hraw he hdup =>
      loadPasswords_duplicate src pre post raw user hash hsplit hfit hwf hnd hraw he hdup⟩

set_option maxRecDepth 100000 in
/-- Witness for claim C4: the duplicate-user input of `TestLoad`, whose two
lines carry different hashes; the error names line 2 and the user. -/
theorem load_duplicate_user_witness :
    ¬ (users (splitNewline srcDuplicate)).Nodup ∧
      (loadPasswords srcDuplicate).1 = none ∧
      (loadPasswords srcDuplicate).2 = some "2: duplicate user user" := by
  have hdup : ¬ (users (splitNewline srcDuplicate)).Nodup := by decide
  obtain ⟨_, hnil, hmsg⟩ := load_duplicate_user srcDuplicate hdup
  have h := hmsg ["user ".toList ++ hashA] [] ("user ".toList ++ hashB) "user".toList hashB
    (by decide) (by decide) (by decide) (by decide) (by decide) (by decide) (by decide)
  refine ⟨hdup, hnil, ?_⟩
  rw [h]
  decide

/-- Claim C5, as stated, fails: a source that is a single comment line of 100000
bytes is refused with a read error instead of giving an empty store. -/
theorem load_comments_long_line_fails :
    (∀ raw ∈ splitNewline srcLongComment, isComment raw = true) ∧
      loadPasswords srcLongComment
        = (none, some "read error: bufio.Scanner: token too long") := by
  obtain ⟨hnl, hcom, _, hlen⟩ := long_comment_line 99999 'c' (by decide) (by decide)
  have hsplit : splitNewline srcLongComment = [] ++ ('#' :: List.replicate 99999 'c') :: [] :=
    splitNewline_last _ (by exact List.cons_ne_nil _ _) hnl
  generalize ('#' :: List.replicate 99999 'c') = long at hnl hcom hlen hsplit
  refine ⟨?_, ?_⟩
  · intro raw hraw
    rw [hsplit] at hraw
    simp only [List.nil_append, List.mem_singleton] at hraw
    exact hraw ▸ hcom
  · have hlong : ¬ fits long := by
      unfold fits MaxScanTokenSize
      omega
    exact loadPasswords_tooLong _ [] _ _ hsplit (by simp) (by simp) (by simp [users, entries])
      hlong

/-- Claim C5, amended: for every source that is empty or consists only of
comment lines (lines whose first non-space character is `#`), each shorter than
65536 bytes, `loadPasswords` returns no error and an empty store. -/
theorem load_comments_only (src : GoString)
    (hfit : ∀ raw ∈ splitNewline src, fits raw)
    (hcom : ∀ raw ∈ splitNewline src, isComment raw = true) :
    loadPasswords src = (some PasswordMap.empty, none) := by
  have hent : entries (splitNewline src) = [] := by
    unfold entries
    rw [List.filterMap_eq_nil_iff]
    intro raw hraw
    simp [entry?, hcom raw hraw]
  have h := loadPasswords_success src hfit (fun raw hraw => Or.inl (hcom raw hraw))
    (by simp [users, hent])
  rw [h, hent]
  rfl

/-- Witness for claim C5: the inputs `# comment` and the empty source of
`TestLoad`, and two comment lines, the second one indented. -/
theorem load_comments_only_witness :
    ((∀ raw ∈ splitNewline "# comment".toList, fits raw) ∧
        (∀ raw ∈ splitNewline "# comment".toList, isComment raw = true) ∧
        loadPasswords "# comment".toList = (some PasswordMap.empty, none)) ∧
      loadPasswords [] = (some PasswordMap.empty, none) ∧
      loadPasswords "#a b c\n \t# d\r\n".toList = (some PasswordMap.empty, none) :=
  ⟨⟨by decide, by decide, load_comments_only "# comment".toList (by decide) (by decide)⟩,
    load_comments_only [] (by decide) (by decide),
    load_comments_only "#a b c\n \t# d\r\n".toList (by decide) (by decide)⟩

/-- Claim C6: for every source that contains a line that is empty or consists
only of white space, `loadPasswords` returns an error: a blank line is rejected,
not skipped. -/
theorem load_blank_line (src : GoString)
    (h : ∃ raw ∈ splitNewline src, ∀ c ∈ raw, IsSpace c = true) :
    (loadPasswords src).2 ≠ none := by
  intro hok
  obtain ⟨raw, hmem, hblank⟩ := h
  exact not_wellFormed_blank raw hblank ((loadPasswords_ok_inv src hok).2.1 raw hmem)

set_option maxRecDepth 100000 in
/-- Witness for claim C6: the source that is a single newline, a blank line
between two valid lines, and a white-space line after a valid line. -/
theorem load_blank_line_witness :
    ((∃ raw ∈ splitNewline "\n".toList, ∀ c ∈ raw, IsSpace c = true) ∧
        (loadPasswords "\n".toList).2 ≠ none) ∧
      (loadPasswords "\n".toList).2 = some "1: invalid line" ∧
      (loadPasswords "a b\n\nc d\n".toList).2 = some "2: invalid line" ∧
      (loadPasswords "a b\n \t\r\n".toList).2 = some "2: invalid line" :=
  ⟨⟨by decide, load_blank_line "\n".toList (by decide)⟩, by decide, by decide, by decide⟩

/-- Claim C7: trailing-newline independence.  For every non-empty source that
does not end in a newline, `loadPasswords` gives the same pair (the same store,
or the same error) on the source and on the source with one newline appended;
in particular, when the source is one that loads (its lines fit the scanner, are
comments or two-field lines, with distinct user names), the entry of a two-field
final line is in the store although no newline ends that line. -/
theorem load_trailing_newline (src : GoString) (hne : src ≠ [])
    (hlast : src.getLast? ≠ some '\n') :
    loadPasswords (src ++ ['\n']) = loadPasswords src ∧
      ∀ (pre : List GoString) (raw user hash : GoString),
        splitNewline src = pre ++ [raw] →
        (∀ r ∈ splitNewline src, fits r) → (∀ r ∈ splitNewline src, wellFormed r) →
        (users (splitNewline src)).Nodup → entry? raw = some (user, hash) →
        (loadPasswords src).2 = none ∧
          lookup (loadPasswords src).1 user = some (toBytes hash) := by
  refine ⟨?_, ?_⟩
  · unfold loadPasswords NewScanner
    rw [splitNewline_append_newline src hne hlast]
  · intro pre raw user hash hsplit hfit hwf hnd he
    rw [loadPasswords_success src hfit hwf hnd]
    refine ⟨rfl, ?_⟩
    have hmem : (user, hash) ∈ entries (splitNewline src) := by
      rw [hsplit, entries, List.mem_filterMap]
      exact ⟨raw, by simp, he⟩
    exact assignAll_mem _ _ hnd user hash hmem

set_option maxRecDepth 100000 in
/-- Witness for claim C7: the one-user input of `TestLoad` without a trailing
newline; its final line is loaded, with and without the newline. -/
theorem load_trailing_newline_witness :
    srcOneUser ≠ [] ∧ srcOneUser.getLast? ≠ some '\n' ∧
      loadPasswords (srcOneUser ++ ['\n']) = loadPasswords srcOneUser ∧
      (loadPasswords srcOneUser).2 = none ∧
      lookup (loadPasswords srcOneUser).1 "user".toList = some (toBytes hashA) ∧
      lookup (loadPasswords (srcOneUser ++ ['\n'])).1 "user".toList = some (toBytes hashA) :=
  have h := load_trailing_newline srcOneUser (by decide) (by decide)
  have h2 := h.2 [] srcOneUser "user".toList hashA (by decide) (by decide) (by decide)
    (by decide) (by decide)
  ⟨by decide, by decide, h.1, h2.1, h2.2, by rw [h.1]; exact h2.2⟩

/-- Claim C8: load is all-or-nothing.  For every source, whenever `loadPasswords`
returns an error the map it returns is nil, and `NewBasicAuthenticatorFromReader`
then returns no authenticator and the same error. -/
theorem load_all_or_nothing (src : GoString) (h : (loadPasswords src).2 ≠ none) :
    (loadPasswords src).1 = none ∧
      (NewBasicAuthenticatorFromReader src).1 = none ∧
      (NewBasicAuthenticatorFromReader src).2 = (loadPasswords src).2 := by
  refine ⟨loadPasswords_error_nil src h, ?_, ?_⟩ <;>
  · unfold NewBasicAuthenticatorFromReader
    split
    · next heq => simp [heq]
    · next heq => simp [heq] at h

set_option maxRecDepth 100000 in
/-- Witness for claim C8: a valid line followed by a malformed one; the entry
of the first line is not returned. -/
theorem load_all_or_nothing_witness :
    (loadPasswords "a b\njunk\n".toList).2 ≠ none ∧
      (loadPasswords "a b\njunk\n".toList).1 = none ∧
      (NewBasicAuthenticatorFromReader "a b\njunk\n".toList).1 = none ∧
      (NewBasicAuthenticatorFromReader "a b\njunk\n".toList).2
        = (loadPasswords "a b\njunk\n".toList).2 :=
  ⟨by decide, load_all_or_nothing "a b\njunk\n".toList (by decide)⟩

/-- Claim C9: for every store and every user name that is not a key of the
store, `checkUserPassword` returns an error (the unknown-user error) for every
password, the empty one included, and makes no call of the hash-comparison
oracle. -/
theorem check_unknown_user (CompareHashAndPassword : Bytes → Bytes → Option String)
    (ba : BasicAuthenticator) (username password : GoString)
    (h : lookup ba.passwords username = none) :
    (checkUserPassword CompareHashAndPassword ba username password).err
        = some (.noSuchUser username) ∧
      (checkUserPassword CompareHashAndPassword ba username password).compared = [] := by
  simp [checkUserPassword, h]

set_option maxRecDepth 100000 in
/-- Witness for claim C9: user `nobody` with the empty password on the store of
`TestCheck`, even with an oracle that accepts everything. -/
theorem check_unknown_user_witness :
    lookup baCheck.passwords "nobody".toList = none ∧
      (checkUserPassword acceptAll baCheck "nobody".toList []).err
        = some (.noSuchUser "nobody".toList) ∧
      (checkUserPassword acceptAll baCheck "nobody".toList []).compared = [] :=
  ⟨by decide, check_unknown_user acceptAll baCheck "nobody".toList [] (by decide)⟩

/-- Claim C10: for every store, every user name that is a key of the store and
every password, `checkUserPassword` returns nil exactly when the oracle accepts
the stored hash of that user with the password, returns the bad-credentials
error when the oracle rejects, and calls the oracle once, on the hash of that
user and on no other. -/
theorem check_known_user (CompareHashAndPassword : Bytes → Bytes → Option String)
    (ba : BasicAuthenticator) (username password : GoString) (hashedPassword : Bytes)
    (h : lookup ba.passwords username = some hashedPassword) :
    ((checkUserPassword CompareHashAndPassword ba username password).err = none ↔
        CompareHashAndPassword hashedPassword (toBytes password) = none) ∧
      (CompareHashAndPassword hashedPassword (toBytes password) ≠ none →
        (checkUserPassword CompareHashAndPassword ba username password).err
          = some (.failedPassword username)) ∧
      (checkUserPassword CompareHashAndPassword ba username password).compared
        = [(hashedPassword, toBytes password)] := by
  unfold checkUserPassword
  rw [h]
  cases hc : CompareHashAndPassword hashedPassword (toBytes password) <;> simp [hc]

set_option maxRecDepth 100000 in
/-- Witness for claim C10: user `user1` of `TestCheck` with password `wrong`,
under an oracle that rejects everything. -/
theorem check_known_user_witness :
    lookup baCheck.passwords "user1".toList = some (toBytes hashA) ∧
      (checkUserPassword rejectAll baCheck "user1".toList "wrong".toList).err
        = some (.failedPassword "user1".toList) ∧
      (checkUserPassword rejectAll baCheck "user1".toList "wrong".toList).compared
        = [(toBytes hashA, toBytes "wrong".toList)] :=
  have h := check_known_user rejectAll baCheck "user1".toList "wrong".toList (toBytes hashA)
    (by decide)
  ⟨by decide, h.2.1 (by decide), h.2.2⟩

/-! ## Lemmas on the gate -/

theorem wrap_no_credentials {α : Type} (cmp : Bytes → Bytes → Option String)
    (ba : BasicAuthenticator) (inner : Request → α) (r : Request) (h : r.BasicAuth = none) :
    Wrap cmp ba inner r
      = [.logPrintln [r.URL, "no auth".toList],
          .headerSet "WWW-Authenticate".toList challenge]
        ++ Error "Unauthorized".toList StatusUnauthorized := by
  simp [Wrap, h]

theorem wrap_rejected {α : Type} (cmp : Bytes → Bytes → Option String)
    (ba : BasicAuthenticator) (inner : Request → α) (r : Request) (user pass : GoString)
    (err : CheckError) (h : r.BasicAuth = some (user, pass))
    (herr : (checkUserPassword cmp ba user pass).err = some err) :
    Wrap cmp ba inner r
      = (checkUserPassword cmp ba user pass).compared.map
          (fun hp => Effect.compareHashAndPassword hp.1 hp.2)
        ++ ([.logPrintf "%s bad auth: %v".toList r.URL err,
            .headerSet "WWW-Authenticate".toList challenge]
          ++ Error "Incorrect username/password".toList StatusUnauthorized) := by
  simp [Wrap, h, herr]

theorem wrap_accepted {α : Type} (cmp : Bytes → Bytes → Option String)
    (ba : BasicAuthenticator) (inner : Request → α) (r : Request) (user pass : GoString)
    (h : r.BasicAuth = some (user, pass))
    (herr : (checkUserPassword cmp ba user pass).err = none) :
    Wrap cmp ba inner r
      = (checkUserPassword cmp ba user pass).compared.map
          (fun hp => Effect.compareHashAndPassword hp.1 hp.2)
        ++ [.logPrintln [r.URL, "by".toList, user],
            .serveHTTP (r.WithContext (WithValue r.Context "user".toList user))
              (inner (r.WithContext (WithValue r.Context "user".toList user)))] := by
  simp [Wrap, h, herr]

theorem respond_compare {α : Type} (calls : List (Bytes × Bytes)) (rest : List (Effect α))
    (w : ResponseWriter) :
    respond (calls.map (fun hp => Effect.compareHashAndPassword hp.1 hp.2) ++ rest) w
      = respond rest w := by
  induction calls with
  | nil => rfl
  | cons c cs ih => simpa [respond, Effect.apply] using ih

theorem writes_compare {α : Type} (calls : List (Bytes × Bytes)) (rest : List (Effect α)) :
    writes (calls.map (fun hp => Effect.compareHashAndPassword hp.1 hp.2) ++ rest)
      = writes rest := by
  induction calls with
  | nil => rfl
  | cons c cs ih => simpa [writes, List.filter_cons, Effect.isWrite] using ih

/-- The calls on the response writer that reject a request with message `msg`. -/
theorem writes_reject {α : Type} (log : Effect α) (hlog : log.isWrite = false) (msg : GoString) :
    writes ([log, .headerSet "WWW-Authenticate".toList challenge]
        ++ Error msg StatusUnauthorized)
      = Effect.headerSet "WWW-Authenticate".toList challenge :: Error msg StatusUnauthorized := by
  cases log <;> simp [Effect.isWrite] at hlog <;>
    simp [writes, List.filter_cons, Effect.isWrite, Error]

/-- The response a fresh writer holds after a rejection with message `msg`. -/
theorem respond_reject_fresh {α : Type} (log : Effect α) (hlog : log.isWrite = false)
    (msg : GoString) :
    (respond ([log, .headerSet "WWW-Authenticate".toList challenge]
        ++ Error msg StatusUnauthorized) ResponseWriter.fresh).status = some 401 ∧
      (respond ([log, .headerSet "WWW-Authenticate".toList challenge]
        ++ Error msg StatusUnauthorized) ResponseWriter.fresh).header "WWW-Authenticate".toList
        = [challenge] ∧
      (respond ([log, .headerSet "WWW-Authenticate".toList challenge]
        ++ Error msg StatusUnauthorized) ResponseWriter.fresh).body = msg ++ ['\n'] := by
  cases log <;> simp [Effect.isWrite] at hlog <;>
    simp [respond, Effect.apply, Error, ResponseWriter.fresh, Header.Set, Header.Del,
      StatusUnauthorized]

/-- Claim C11: for every request whose credentials `checkUserPassword` rejects,
the response the `Wrap` handler writes (the calls on the response writer, and so
the status, the challenge header and the body) is the same whether the user name
is absent from the store or present with a wrong password, and does not depend
on the store: any two rejected requests, against any two stores and oracles, get
the same calls and leave every response writer in the same state. -/
theorem wrap_rejected_response_uniform {α : Type}
    (cmp1 cmp2 : Bytes → Bytes → Option String) (ba1 ba2 : BasicAuthenticator)
    (inner1 inner2 : Request → α) (r1 r2 : Request) (user1 pass1 user2 pass2 : GoString)
    (h1 : r1.BasicAuth = some (user1, pass1)) (h2 : r2.BasicAuth = some (user2, pass2))
    (e1 : (checkUserPassword cmp1 ba1 user1 pass1).err ≠ none)
    (e2 : (checkUserPassword cmp2 ba2 user2 pass2).err ≠ none) :
    writes (Wrap cmp1 ba1 inner1 r1) = writes (Wrap cmp2 ba2 inner2 r2) ∧
      ∀ w : ResponseWriter,
        respond (Wrap cmp1 ba1 inner1 r1) w = respond (Wrap cmp2 ba2 inner2 r2) w := by
  obtain ⟨err1, herr1⟩ := Option.ne_none_iff_exists'.mp e1
  obtain ⟨err2, herr2⟩ := Option.ne_none_iff_exists'.mp e2
  rw [wrap_rejected cmp1 ba1 inner1 r1 user1 pass1 err1 h1 herr1,
    wrap_rejected cmp2 ba2 inner2 r2 user2 pass2 err2 h2 herr2]
  refine ⟨?_, fun w => ?_⟩
  · rw [writes_compare, writes_compare,
      writes_reject (Effect.logPrintf "%s bad auth: %v".toList r1.URL err1) rfl,
      writes_reject (Effect.logPrintf "%s bad auth: %v".toList r2.URL err2) rfl]
  · rw [respond_compare, respond_compare]
    rfl

set_option maxRecDepth 100000 in
/-- Witness for claim C11: on the store of `TestCheck`, user `nobody` (absent)
and user `user1` with a password the oracle rejects. -/
theorem wrap_rejected_response_uniform_witness :
    lookup baCheck.passwords "nobody".toList = none ∧
      lookup baCheck.passwords "user1".toList ≠ none ∧
      writes (Wrap rejectAll baCheck innerNone reqNobody)
        = writes (Wrap rejectAll baCheck innerNone reqUser1) ∧
      ∀ w : ResponseWriter,
        respond (Wrap rejectAll baCheck innerNone reqNobody) w
          = respond (Wrap rejectAll baCheck innerNone reqUser1) w :=
  ⟨by decide, by decide,
    wrap_rejected_response_uniform rejectAll rejectAll baCheck baCheck innerNone innerNone
      reqNobody reqUser1 "nobody".toList "wrong".toList "user1".toList "you-cracked-it".toList
      rfl rfl (by decide) (by decide)⟩

/-- Claim C12, as stated, fails in the body: for a request without credentials
the body the gate writes is `Unauthorized` followed by a newline, because
`http.Error` prints the message with `fmt.Fprintln`. -/
theorem wrap_no_credentials_body_has_newline :
    reqNoAuth.BasicAuth = none ∧
      (respond (Wrap acceptAll baCheck innerNone reqNoAuth) ResponseWriter.fresh).body
        = "Unauthorized\n".toList ∧
      (respond (Wrap acceptAll baCheck innerNone reqNoAuth) ResponseWriter.fresh).body
        ≠ "Unauthorized".toList := by
  have h := (respond_reject_fresh
    (Effect.logPrintln [reqNoAuth.URL, "no auth".toList] : Effect Unit) rfl
    "Unauthorized".toList).2.2
  rw [← wrap_no_credentials acceptAll baCheck innerNone reqNoAuth rfl] at h
  refine ⟨rfl, h, ?_⟩
  rw [h]
  decide

/-- Claim C12, amended: for every request with no (or malformed) basic-auth
header, the `Wrap` handler responds with status 401, the header
`WWW-Authenticate: Basic realm="restricted", charset="UTF-8"` and the body
`Unauthorized` followed by a newline, and does not consult the credential
store: its effects are the same for every store and oracle, and the oracle is
not called. -/
theorem wrap_no_credentials_response {α : Type} (cmp : Bytes → Bytes → Option String)
    (ba : BasicAuthenticator) (inner : Request → α) (r : Request) (h : r.BasicAuth = none) :
    (respond (Wrap cmp ba inner r) ResponseWriter.fresh).status = some 401 ∧
      (respond (Wrap cmp ba inner r) ResponseWriter.fresh).header "WWW-Authenticate".toList
        = ["Basic realm=\"restricted\", charset=\"UTF-8\"".toList] ∧
      (respond (Wrap cmp ba inner r) ResponseWriter.fresh).body = "Unauthorized\n".toList ∧
      invocations (Wrap cmp ba inner r) = [] ∧
      ∀ (cmp2 : Bytes → Bytes → Option String) (ba2 : BasicAuthenticator),
        Wrap cmp2 ba2 inner r = Wrap cmp ba inner r := by
  have hw := wrap_no_credentials cmp ba inner r h
  have hr := respond_reject_fresh
    (Effect.logPrintln [r.URL, "no auth".toList] : Effect α) rfl "Unauthorized".toList
  rw [← hw] at hr
  refine ⟨hr.1, hr.2.1, hr.2.2, ?_, fun cmp2 ba2 => ?_⟩
  · rw [hw]
    rfl
  · rw [hw, wrap_no_credentials cmp2 ba2 inner r h]

/-- Witness for claim C12: a request without credentials. -/
theorem wrap_no_credentials_response_witness :
    reqNoAuth.BasicAuth = none ∧
      (respond (Wrap rejectAll baCheck innerNone reqNoAuth) ResponseWriter.fresh).status
        = some 401 ∧
      (respond (Wrap rejectAll baCheck innerNone reqNoAuth) ResponseWriter.fresh).body
        = "Unauthorized\n".toList :=
  have h := wrap_no_credentials_response rejectAll baCheck innerNone reqNoAuth rfl
  ⟨rfl, h.1, h.2.2.1⟩

/-- Claim C13, as stated, fails in the body: for a request with rejected
credentials the body the gate writes is `Incorrect username/password` followed
by a newline. -/
theorem wrap_bad_credentials_body_has_newline :
    reqNobody.BasicAuth = some ("nobody".toList, "wrong".toList) ∧
      (checkUserPassword acceptAll baCheck "nobody".toList "wrong".toList).err ≠ none ∧
      (respond (Wrap acceptAll baCheck innerNone reqNobody) ResponseWriter.fresh).body
        = "Incorrect username/password\n".toList ∧
      (respond (Wrap acceptAll baCheck innerNone reqNobody) ResponseWriter.fresh).body
        ≠ "Incorrect username/password".toList := by
  have herr : (checkUserPassword acceptAll baCheck "nobody".toList "wrong".toList).err
      = some (.noSuchUser "nobody".toList) := by
    set_option maxRecDepth 100000 in decide
  have h := (respond_reject_fresh
    (Effect.logPrintf "%s bad auth: %v".toList reqNobody.URL
      (.noSuchUser "nobody".toList) : Effect Unit) rfl
    "Incorrect username/password".toList).2.2
  have hb : (respond (Wrap acceptAll baCheck innerNone reqNobody) ResponseWriter.fresh).body
      = "Incorrect username/password\n".toList := by
    rw [wrap_rejected acceptAll baCheck innerNone reqNobody _ _ _ rfl herr, respond_compare]
    exact h
  refine ⟨rfl, by rw [herr]; simp, hb, ?_⟩
  rw [hb]
  decide

/-- Claim C13, amended: for every request that carries basic-auth credentials
for which `checkUserPassword` returns an error, the `Wrap` handler responds with
status 401, the same challenge header
`WWW-Authenticate: Basic realm="restricted", charset="UTF-8"`, and the body
`Incorrect username/password` followed by a newline; the wrapped handler is not
invoked. -/
theorem wrap_bad_credentials_response {α : Type} (cmp : Bytes → Bytes → Option String)
    (ba : BasicAuthenticator) (inner : Request → α) (r : Request) (user pass : GoString)
    (h : r.BasicAuth = some (user, pass))
    (herr : (checkUserPassword cmp ba user pass).err ≠ none) :
    (respond (Wrap cmp ba inner r) ResponseWriter.fresh).status = some 401 ∧
      (respond (Wrap cmp ba inner r) ResponseWriter.fresh).header "WWW-Authenticate".toList
        = ["Basic realm=\"restricted\", charset=\"UTF-8\"".toList] ∧
      (respond (Wrap cmp ba inner r) ResponseWriter.fresh).body
        = "Incorrect username/password\n".toList ∧
      invocations (Wrap cmp ba inner r) = [] := by
  obtain ⟨err, he⟩ := Option.ne_none_iff_exists'.mp herr
  have hw := wrap_rejected cmp ba inner r user pass err h he
  have hr := respond_reject_fresh
    (Effect.logPrintf "%s bad auth: %v".toList r.URL err : Effect α) rfl
    "Incorrect username/password".toList
  rw [hw, respond_compare, invocations_compare]
  exact ⟨hr.1, hr.2.1, hr.2.2, rfl⟩

set_option maxRecDepth 100000 in
/-- Witness for claim C13: user `user1` of `TestCheck` with a password the
oracle rejects. -/
theorem wrap_bad_credentials_response_witness :
    (checkUserPassword rejectAll baCheck "user1".toList "you-cracked-it".toList).err ≠ none ∧
      (respond (Wrap rejectAll baCheck innerNone reqUser1) ResponseWriter.fresh).status
        = some 401 ∧
      (respond (Wrap rejectAll baCheck innerNone reqUser1) ResponseWriter.fresh).body
        = "Incorrect username/password\n".toList :=
  have h := wrap_bad_credentials_response rejectAll baCheck innerNone reqUser1
    "user1".toList "you-cracked-it".toList rfl (by decide)
  ⟨by decide, h.1, h.2.2.1⟩

/-- Claim C14: for every request whose credentials `checkUserPassword` accepts,
the `Wrap` handler itself makes no call on the response writer (no status, header
or body; every response writer is left as it was), and the wrapped handler is
invoked on the original request (same URL, same credentials) with its context
extended so that the value under the key `user` is exactly the user name of the
request, the other context values being kept; that user name is a key of the
store. -/
theorem wrap_accepted_forwards {α : Type} (cmp : Bytes → Bytes → Option String)
    (ba : BasicAuthenticator) (inner : Request → α) (r : Request) (user pass : GoString)
    (h : r.BasicAuth = some (user, pass))
    (herr : (checkUserPassword cmp ba user pass).err = none) :
    writes (Wrap cmp ba inner r) = [] ∧
      (∀ w : ResponseWriter, respond (Wrap cmp ba inner r) w = w) ∧
      ∃ r2 : Request, invocations (Wrap cmp ba inner r) = [r2] ∧
        r2.URL = r.URL ∧ r2.BasicAuth = r.BasicAuth ∧
        r2.Context = ("user".toList, user) :: r.Context ∧
        Value r2.Context "user".toList = some user ∧
        (∀ key, key ≠ "user".toList → Value r2.Context key = Value r.Context key) ∧
        lookup ba.passwords user ≠ none := by
  have hw := wrap_accepted cmp ba inner r user pass h herr
  refine ⟨?_, fun w => ?_, r.WithContext (WithValue r.Context "user".toList user), ?_, rfl, rfl,
    rfl, ?_, fun key hkey => ?_, ?_⟩
  · rw [hw, writes_compare]
    rfl
  · rw [hw, respond_compare]
    rfl
  · rw [hw, invocations_compare]
    rfl
  · simp [Request.WithContext, WithValue, Value]
  · simp only [Request.WithContext, WithValue, Value]
    rw [if_neg (fun e => hkey e.symm)]
  · intro hnone
    simp [checkUserPassword, hnone] at herr

set_option maxRecDepth 100000 in
/-- Witness for claim C14: user `user1` of `TestCheck` under an oracle that
accepts; the wrapped handler sees `user1` under the key `user`. -/
theorem wrap_accepted_forwards_witness :
    (checkUserPassword acceptAll baCheck "user1".toList "you-cracked-it".toList).err = none ∧
      writes (Wrap acceptAll baCheck innerNone reqUser1) = [] ∧
      ∃ r2 : Request, invocations (Wrap acceptAll baCheck innerNone reqUser1) = [r2] ∧
        Value r2.Context "user".toList = some "user1".toList :=
  have h := wrap_accepted_forwards acceptAll baCheck innerNone reqUser1
    "user1".toList "you-cracked-it".toList rfl (by decide)
  ⟨by decide, h.1, h.2.2.imp (fun _ hr => ⟨hr.1, hr.2.2.2.2.1⟩)⟩

/-! ## Lemmas on the reported error -/

theorem loadPasswords_malformed (src : GoString) (pre rest : List GoString) (raw : GoString)
    (hsplit : splitNewline src = pre ++ raw :: rest)
    (hfit : ∀ r ∈ pre, fits r) (hwf : ∀ r ∈ pre, wellFormed r) (hnd : (users pre).Nodup)
    (hraw : fits raw) (hbad : ¬ wellFormed raw) :
    loadPasswords src = (none, some (toString (pre.length + 1) ++ ": invalid line")) := by
  have hfit2 : ∀ r ∈ pre ++ [raw], fits r := by
    intro r hr
    rcases List.mem_append.mp hr with hr | hr
    · exact hfit r hr
    · simp at hr
      exact hr ▸ hraw
  obtain ⟨htok, _⟩ := scanPieces_append (pre ++ [raw]) rest hfit2
  have htok2 : (scanPieces (pre ++ raw :: rest)).tokens
      = pre.map dropCR ++ dropCR raw :: (scanPieces rest).tokens := by
    simpa using htok
  have hloop := loadLoop_accepted pre (dropCR raw :: (scanPieces rest).tokens) 0
    PasswordMap.empty hwf hnd (fun _ _ => rfl)
  rw [loadLoop_malformed _ _ _ _ hbad] at hloop
  simp only [loadPasswords, NewScanner, hsplit, htok2, hloop, Nat.zero_add]

/-- A line of `n` spaces: it contains no newline, is not accepted by the
loader, and is `n` bytes long. -/
theorem long_blank_line (n : Nat) :
    '\n' ∉ List.replicate n ' ' ∧ ¬ wellFormed (List.replicate n ' ') ∧
      byteLen (List.replicate n ' ') = n := by
  refine ⟨?_, ?_, ?_⟩
  · intro h
    exact absurd (List.eq_of_mem_replicate h) (by decide)
  · apply not_wellFormed_blank
    intro c hc
    rw [List.eq_of_mem_replicate hc]
    decide
  · have h1 : Char.utf8Size ' ' = 1 := by decide
    rw [byteLen_replicate, h1, Nat.mul_one]

/-- The tokens a scanner yields are those of a prefix of the pieces, all of
which fit. -/
theorem scanPieces_scanned (pieces : List GoString) :
    ∃ pre rest, pieces = pre ++ rest ∧ (∀ r ∈ pre, fits r) ∧
      (scanPieces pieces).tokens = pre.map dropCR := by
  induction pieces with
  | nil => exact ⟨[], [], rfl, by simp, rfl⟩
  | cons raw tail ih =>
    by_cases h1 : MaxScanTokenSize ≤ byteLen raw
    · exact ⟨[], raw :: tail, rfl, by simp, by simp [scanPieces, h1]⟩
    · obtain ⟨pre, rest, hsplit, hfit, htok⟩ := ih
      refine ⟨raw :: pre, rest, by simp [hsplit], ?_, by simp [scanPieces, h1, htok]⟩
      intro r hr
      rcases List.mem_cons.mp hr with rfl | hr
      · unfold fits
        omega
      · exact hfit r hr

/-- A loop that stops with an error stops at the first line that is not
accepted: every line before it is accepted, and the error carries the number of
that line. -/
theorem loadLoop_error_inv (pieces : List GoString) (n : Nat) (ret : PasswordMap) (e : String)
    (h : loadLoop (pieces.map dropCR) n ret = .error e) :
    ∃ pre raw post, pieces = pre ++ raw :: post ∧ (∀ r ∈ pre, wellFormed r) ∧
      (users pre).Nodup ∧ (∀ u ∈ users pre, ret u = none) ∧
      ((¬ wellFormed raw ∧ e = toString (n + pre.length + 1) ++ ": invalid line") ∨
        ∃ user hash, entry? raw = some (user, hash) ∧ (user ∈ users pre ∨ ret user ≠ none) ∧
          e = toString (n + pre.length + 1) ++ ": duplicate user " ++ String.mk user) := by
  induction pieces generalizing n ret with
  | nil => simp [loadLoop] at h
  | cons raw tail ih =>
    rw [List.map_cons] at h
    by_cases hwf : wellFormed raw
    · rcases wellFormed_cases raw hwf with ⟨hc, he⟩ | ⟨user, hash, _, _, he⟩
      · rw [loadLoop_comment _ _ _ _ hc] at h
        obtain ⟨pre, bad, post, hsplit, h1, h2, h3, h4⟩ := ih _ _ h
        have hent := entries_cons_none raw pre he
        refine ⟨raw :: pre, bad, post, by simp [hsplit], ?_, by simpa [users, hent] using h2,
          by simpa [users, hent] using h3, ?_⟩
        · intro r hr
          rcases List.mem_cons.mp hr with rfl | hr
          · exact hwf
          · exact h1 r hr
        · have hn : n + (raw :: pre).length + 1 = n + 1 + pre.length + 1 := by
            simp only [List.length_cons]
            omega
          rw [hn]
          simpa [users, hent] using h4
      · cases hold : ret user with
        | some old =>
          rw [loadLoop_entry_dup _ _ _ _ _ _ old he hold] at h
          refine ⟨[], raw, tail, rfl, by simp, by simp [users, entries], by simp [users, entries],
            Or.inr ⟨user, hash, he, Or.inr (by simp [hold]), ?_⟩⟩
          simpa using (Except.error.inj h).symm
        | none =>
          rw [loadLoop_entry_new _ _ _ _ _ _ he hold] at h
          obtain ⟨pre, bad, post, hsplit, h1, h2, h3, h4⟩ := ih _ _ h
          have hent := entries_cons_some raw pre _ he
          have hnot : user ∉ users pre := by
            intro hu
            have := h3 user hu
            simp [PasswordMap.set] at this
          have husers : users (raw :: pre) = user :: users pre := by
            simp [users, hent]
          have hn : n + (raw :: pre).length + 1 = n + 1 + pre.length + 1 := by
            simp only [List.length_cons]
            omega
          refine ⟨raw :: pre, bad, post, by simp [hsplit], ?_, ?_, ?_, ?_⟩
          · intro r hr
            rcases List.mem_cons.mp hr with rfl | hr
            · exact hwf
            · exact h1 r hr
          · rw [husers]
            exact List.nodup_cons.mpr ⟨hnot, h2⟩
          · intro u hu
            rw [husers] at hu
            rcases List.mem_cons.mp hu with rfl | hu
            · exact hold
            · have hne : u ≠ user := fun h => hnot (h ▸ hu)
              simpa [PasswordMap.set, hne] using h3 u hu
          · rw [hn, husers]
            rcases h4 with h4 | ⟨u2, hash2, he2, hin, hmsg⟩
            · exact Or.inl h4
            · refine Or.inr ⟨u2, hash2, he2, ?_, hmsg⟩
              rcases hin with hin | hin
              · exact Or.inl (List.mem_cons_of_mem _ hin)
              · by_cases hu2 : u2 = user
                · exact Or.inl (by simp [hu2])
                · exact Or.inr (by simpa [PasswordMap.set, hu2] using hin)
    · rw [loadLoop_malformed _ _ _ _ hwf] at h
      refine ⟨[], raw, tail, rfl, by simp, by simp [users, entries], by simp [users, entries],
        Or.inl ⟨hwf, ?_⟩⟩
      simpa using (Except.error.inj h).symm

/-- Claim C15, as stated, fails: the error for a line with a wrong field count
is `<n>: invalid line` and does not carry the content of the line (the one-field
sources `junk` and `trash` get the same error, in which `junk` does not occur);
and when that line is 65536 bytes or longer (here a line of 70000 spaces) the
error is the scanner's read error, which carries no line number either. -/
theorem load_malformed_error_lacks_content :
    (isComment "junk".toList = false ∧ (Fields (TrimSpace "junk".toList)).length = 1 ∧
        (loadPasswords "junk".toList).2 = some "1: invalid line" ∧
        (loadPasswords "trash".toList).2 = some "1: invalid line" ∧
        ¬ "junk".toList <:+: "1: invalid line".toList) ∧
      (splitNewline srcLongBlank = [srcLongBlank] ∧ ¬ wellFormed srcLongBlank ∧
        (loadPasswords srcLongBlank).2 = some "read error: bufio.Scanner: token too long") := by
  refine ⟨⟨by decide, by decide, by decide, by decide, by decide⟩, ?_⟩
  obtain ⟨hnl, hbad, hlen⟩ := long_blank_line 70000
  have hne : List.replicate 70000 ' ' ≠ [] := by
    intro h
    have h2 := congrArg List.length h
    rw [List.length_replicate] at h2
    exact absurd h2 (by decide)
  have hsplit : splitNewline srcLongBlank = [] ++ srcLongBlank :: [] :=
    splitNewline_last _ hne hnl
  unfold srcLongBlank at hsplit ⊢
  generalize List.replicate 70000 ' ' = long at hnl hbad hlen hsplit
  have hlong : ¬ fits long := by
    unfold fits MaxScanTokenSize
    omega
  refine ⟨hsplit, hbad, ?_⟩
  rw [loadPasswords_tooLong _ [] _ _ hsplit (by simp) (by simp) (by simp [users, entries]) hlong]
  rfl

/-- Claim C15, amended: for every source whose first offending line has a field
count other than two and is shorter than 65536 bytes (every line before it is
shorter than 65536 bytes and is a comment or has two fields, with pairwise
distinct user names), the error returned by `loadPasswords` is `<n>: invalid
line`, with `n` the 1-based number of that line; the error carries the line
number only. -/
theorem load_malformed_error (src : GoString) (pre post : List GoString) (raw : GoString)
    (hsplit : splitNewline src = pre ++ raw :: post)
    (hfit : ∀ r ∈ pre, fits r) (hwf : ∀ r ∈ pre, wellFormed r) (hnd : (users pre).Nodup)
    (hraw : fits raw) (hc : isComment raw = false)
    (hlen : (Fields (TrimSpace raw)).length ≠ 2) :
    loadPasswords src = (none, some (toString (pre.length + 1) ++ ": invalid line")) := by
  apply loadPasswords_malformed src pre post raw hsplit hfit hwf hnd hraw
  intro hw
  rcases hw with hw | hw
  · simp [hc] at hw
  · exact hlen hw

set_option maxRecDepth 100000 in
/-- Witness for claim C15: a comment, a valid line, then a three-field line,
which is line 3. -/
theorem load_malformed_error_witness :
    splitNewline "# c\na b\njunk trash garbage\nd e\n".toList
        = ["# c".toList, "a b".toList] ++ "junk trash garbage".toList :: ["d e".toList] ∧
      loadPasswords "# c\na b\njunk trash garbage\nd e\n".toList
        = (none, some "3: invalid line") :=
  ⟨by decide,
    load_malformed_error "# c\na b\njunk trash garbage\nd e\n".toList
      ["# c".toList, "a b".toList] ["d e".toList] "junk trash garbage".toList
      (by decide) (by decide) (by decide) (by decide) (by decide) (by decide) (by decide)⟩

/-- Claim C18: whenever `loadPasswords` fails with a parse error (an error other
than the scanner's read error), the line number in the error is the 1-based
index, counting every line of the source, comment lines included, of the first
line that is either malformed (no comment, and a field count other than two) or
has the user name of an earlier line: every line before the reported one is a
comment or a two-field line, and the user names before it are pairwise
distinct, so that no offending line comes before the one reported. -/
theorem load_error_first_offending (src : GoString) (e : String)
    (h : (loadPasswords src).2 = some e) (hparse : e ≠ "read error: " ++ ErrTooLong) :
    ∃ pre raw post, splitNewline src = pre ++ raw :: post ∧
      (∀ r ∈ pre, wellFormed r) ∧ (users pre).Nodup ∧
      ((¬ wellFormed raw ∧ e = toString (pre.length + 1) ++ ": invalid line") ∨
        ∃ user hash, entry? raw = some (user, hash) ∧ user ∈ users pre ∧
          e = toString (pre.length + 1) ++ ": duplicate user " ++ String.mk user) := by
  obtain ⟨scanned, rest, hsplit, _, htok⟩ := scanPieces_scanned (splitNewline src)
  unfold loadPasswords NewScanner at h
  simp only [htok] at h
  cases hloop : loadLoop (scanned.map dropCR) 0 PasswordMap.empty with
  | ok ret =>
    rw [hloop] at h
    cases herr : (scanPieces (splitNewline src)).err with
    | none => simp [herr] at h
    | some err =>
      have herr2 := herr
      simp only [herr] at h
      exfalso
      apply hparse
      have he : "read error: " ++ err = e := by simpa using h
      rw [← he]
      have : err = ErrTooLong := by
        clear h hloop he
        generalize splitNewline src = pieces at herr2
        induction pieces with
        | nil => simp [scanPieces] at herr2
        | cons raw tail ih =>
          by_cases h1 : MaxScanTokenSize ≤ byteLen raw
          · simp [scanPieces, h1] at herr2
            exact herr2.symm
          · simp only [scanPieces, if_neg h1] at herr2
            exact ih herr2
      rw [this]
  | error e2 =>
    rw [hloop] at h
    have he : e2 = e := by simpa using h
    subst he
    obtain ⟨pre, raw, post, hs, h1, h2, _, h4⟩ := loadLoop_error_inv scanned 0 _ _ hloop
    refine ⟨pre, raw, post ++ rest, by simp [hsplit, hs], h1, h2, ?_⟩
    rcases h4 with ⟨hb, hm⟩ | ⟨user, hash, he, hin, hm⟩
    · exact Or.inl ⟨hb, by simpa using hm⟩
    · refine Or.inr ⟨user, hash, he, ?_, by simpa using hm⟩
      rcases hin with hin | hin
      · exact hin
      · exact absurd rfl hin

set_option maxRecDepth 100000 in
/-- Witness for claim C18: a source with a duplicate user on line 4 and a
malformed line on line 5; the error reports line 4. -/
theorem load_error_first_offending_witness :
    (loadPasswords "# c\na b\nc d\na e\njunk\n".toList).2 = some "4: duplicate user a" ∧
      ∃ pre raw post, splitNewline "# c\na b\nc d\na e\njunk\n".toList = pre ++ raw :: post ∧
        (∀ r ∈ pre, wellFormed r) ∧ (users pre).Nodup ∧
        ((¬ wellFormed raw ∧
            "4: duplicate user a" = toString (pre.length + 1) ++ ": invalid line") ∨
          ∃ user hash, entry? raw = some (user, hash) ∧ user ∈ users pre ∧
            "4: duplicate user a"
              = toString (pre.length + 1) ++ ": duplicate user " ++ String.mk user) :=
  ⟨by decide,
    load_error_first_offending "# c\na b\nc d\na e\njunk\n".toList "4: duplicate user a"
      (by decide) (by decide)⟩

/-- Claim C16: both construction entry points apply the same parsing.  For every
file that opens and holds the text `c`, `NewBasicAuthenticatorFromFile` succeeds
exactly when `NewBasicAuthenticatorFromReader` on `c` succeeds, the two
authenticators then hold the same map, and when the reader variant fails with
error `e` (which carries the line number) the file variant fails with
`<path>:<e>`. -/
theorem file_and_reader_agree (osOpen : GoString → Except String GoString)
    (passwordFile c : GoString) (hopen : osOpen passwordFile = .ok c) :
    ((NewBasicAuthenticatorFromFile osOpen passwordFile).2 = none ↔
        (NewBasicAuthenticatorFromReader c).2 = none) ∧
      ((NewBasicAuthenticatorFromFile osOpen passwordFile).1.isSome
        = (NewBasicAuthenticatorFromReader c).1.isSome) ∧
      ((NewBasicAuthenticatorFromFile osOpen passwordFile).1.map (fun ba => ba.passwords)
        = (NewBasicAuthenticatorFromReader c).1.map (fun ba => ba.passwords)) ∧
      (loadPasswordsFromFile osOpen passwordFile).1 = (loadPasswords c).1 ∧
      ∀ e, (NewBasicAuthenticatorFromReader c).2 = some e →
        (NewBasicAuthenticatorFromFile osOpen passwordFile).2
            = some (String.mk passwordFile ++ ":" ++ e) ∧
          (NewBasicAuthenticatorFromFile osOpen passwordFile).1 = none := by
  have hnil : (loadPasswords c).2 ≠ none → (loadPasswords c).1 = none :=
    loadPasswords_error_nil c
  unfold NewBasicAuthenticatorFromFile NewBasicAuthenticatorFromReader loadPasswordsFromFile
  rw [hopen]
  rcases hl : loadPasswords c with ⟨m, _ | err⟩
  · simp [hl]
  · rw [hl] at hnil
    have hm : m = none := hnil (by simp)
    subst hm
    simp [hl]

set_option maxRecDepth 100000 in
/-- Witness for claim C16: the file `passwd` with the two-user input of
`TestLoad` (both variants succeed, and `user2` has the same hash in both), and
the file `bad` whose second line is malformed (the file variant prefixes the
path to the error of the reader variant). -/
theorem file_and_reader_agree_witness :
    osOpenPasswd "passwd".toList = .ok srcTwoUsers ∧
      ((NewBasicAuthenticatorFromFile osOpenPasswd "passwd".toList).2 = none ↔
        (NewBasicAuthenticatorFromReader srcTwoUsers).2 = none) ∧
      (NewBasicAuthenticatorFromFile osOpenPasswd "passwd".toList).2 = none ∧
      (loadPasswordsFromFile osOpenPasswd "passwd".toList).1 = (loadPasswords srcTwoUsers).1 ∧
      lookup (loadPasswordsFromFile osOpenPasswd "passwd".toList).1 "user2".toList
        = some (toBytes hashB) ∧
      (NewBasicAuthenticatorFromReader "a b\njunk\n".toList).2 = some "2: invalid line" ∧
      (NewBasicAuthenticatorFromFile osOpenBad "bad".toList).2 = some "bad:2: invalid line" :=
  have h := file_and_reader_agree osOpenPasswd "passwd".toList srcTwoUsers (by rfl)
  have h2 := file_and_reader_agree osOpenBad "bad".toList "a b\njunk\n".toList (by rfl)
  ⟨by rfl, h.1, by decide, h.2.2.2.1, by decide, by decide,
    (h2.2.2.2.2 "2: invalid line" (by decide)).1⟩

/-! ## Lemmas on the shape of fields -/

theorem fieldsAux_mem (s cur : GoString) (hcur : ∀ c ∈ cur, IsSpace c = false) :
    ∀ f ∈ fieldsAux s cur, f ≠ [] ∧ ∀ c ∈ f, IsSpace c = false := by
  induction s generalizing cur with
  | nil =>
    intro f hf
    by_cases h0 : cur = []
    · simp [fieldsAux, h0] at hf
    · simp only [fieldsAux, if_neg h0, List.mem_singleton] at hf
      subst hf
      exact ⟨by simpa using h0, fun c hc => hcur c (List.mem_reverse.mp hc)⟩
  | cons a s ih =>
    intro f hf
    rw [fieldsAux] at hf
    by_cases ha : IsSpace a = true
    · simp only [ha, if_true] at hf
      by_cases h0 : cur = []
      · simp only [h0, if_true] at hf
        exact ih [] (by simp) f hf
      · simp only [if_neg h0, List.mem_cons] at hf
        rcases hf with rfl | hf
        · exact ⟨by simpa using h0, fun c hc => hcur c (List.mem_reverse.mp hc)⟩
        · exact ih [] (by simp) f hf
    · simp only [ha, Bool.false_eq_true, if_false] at hf
      refine ih (a :: cur) ?_ f hf
      intro c hc
      rcases List.mem_cons.mp hc with rfl | hc
      · simpa using ha
      · exact hcur c hc

theorem fieldsAux_head (s cur : GoString) (hcur : cur ≠ []) :
    ∃ tail rest, fieldsAux s cur = (cur.reverse ++ tail) :: rest := by
  induction s generalizing cur with
  | nil => exact ⟨[], [], by simp [fieldsAux, hcur]⟩
  | cons a s ih =>
    rw [fieldsAux]
    by_cases ha : IsSpace a = true
    · exact ⟨[], fieldsAux s [], by simp [ha, hcur]⟩
    · obtain ⟨tail, rest, h⟩ := ih (a :: cur) (by simp)
      refine ⟨a :: tail, rest, ?_⟩
      simp only [ha, Bool.false_eq_true, if_false, h, List.reverse_cons, List.append_assoc,
        List.singleton_append]

theorem trimSpace_head (raw : GoString) (c : Char) (cs : GoString)
    (h : TrimSpace raw = c :: cs) : IsSpace c = false := by
  obtain ⟨t, ht⟩ := List.rdropWhile_prefix IsSpace (raw.dropWhile IsSpace)
  have hd := List.head?_dropWhile_not IsSpace raw
  unfold TrimSpace at h
  rw [h] at ht
  rw [← ht] at hd
  simpa using hd

theorem entry?_some (raw user hash : GoString) (h : entry? raw = some (user, hash)) :
    isComment raw = false ∧ Fields (TrimSpace raw) = [user, hash] := by
  unfold entry? at h
  split at h
  · exact absurd h (by simp)
  · next hc =>
    refine ⟨by simpa using hc, ?_⟩
    split at h
    · next u2 h2 heq =>
      simp only [Option.some.injEq, Prod.mk.injEq] at h
      rw [heq, h.1, h.2]
    · exact absurd h (by simp)

/-- The two fields of an accepted line: the user name is not empty, holds no
white space and does not begin with `#`; the hash is not empty and holds no
white space. -/
theorem entry?_shape (raw user hash : GoString) (h : entry? raw = some (user, hash)) :
    user ≠ [] ∧ (∀ c ∈ user, IsSpace c = false) ∧ user.head? ≠ some '#' ∧
      hash ≠ [] ∧ ∀ c ∈ hash, IsSpace c = false := by
  obtain ⟨hc, hf⟩ := entry?_some raw user hash h
  have hu := fieldsAux_mem (TrimSpace raw) [] (by simp) user (by
    show user ∈ Fields (TrimSpace raw)
    rw [hf]
    simp)
  have hh := fieldsAux_mem (TrimSpace raw) [] (by simp) hash (by
    show hash ∈ Fields (TrimSpace raw)
    rw [hf]
    simp)
  refine ⟨hu.1, hu.2, ?_, hh.1, hh.2⟩
  intro hhead
  cases hline : TrimSpace raw with
  | nil => simp [hline, Fields, fieldsAux] at hf
  | cons c cs =>
    have hsp := trimSpace_head raw c cs hline
    obtain ⟨tail, rest, hfa⟩ := fieldsAux_head cs [c] (by simp)
    have hf2 : Fields (c :: cs) = fieldsAux cs [c] := by
      simp [Fields, fieldsAux, hsp]
    rw [hline, hf2, hfa] at hf
    simp only [List.reverse_singleton, List.singleton_append, List.cons.injEq] at hf
    rw [← hf.1] at hhead
    simp only [List.head?_cons, Option.some.injEq] at hhead
    have : isComment raw = true := by
      simp [isComment, hline, HasPrefix, hhead]
    rw [hc] at this
    exact absurd this (by simp)

theorem toBytes_ne_nil (s : GoString) (h : s ≠ []) : toBytes s ≠ [] := by
  cases s with
  | nil => exact absurd rfl h
  | cons c cs =>
    intro hnil
    have hlen := congrArg List.length hnil
    simp only [toBytes, List.flatMap_cons, List.length_append, String.length_utf8EncodeChar,
      List.length_nil] at hlen
    have := Char.utf8Size_pos c
    omega

/-- The entries of a map a successful load returns. -/
theorem loadPasswords_entries (src : GoString) (m : PasswordMap)
    (h : loadPasswords src = (some m, none)) (user : GoString) (hb : Bytes)
    (hm : m user = some hb) :
    ∃ raw hash, raw ∈ splitNewline src ∧ entry? raw = some (user, hash) ∧ hb = toBytes hash := by
  have hok : (loadPasswords src).2 = none := by rw [h]
  obtain ⟨hfit, hwf, hnd⟩ := loadPasswords_ok_inv src hok
  have hs := loadPasswords_success src hfit hwf hnd
  rw [h] at hs
  have hmeq : m = assignAll (entries (splitNewline src)) PasswordMap.empty := by
    simpa using hs
  have hin : user ∈ users (splitNewline src) := by
    rw [users, ← assignAll_isSome _ _ hnd, ← hmeq, hm]
    rfl
  obtain ⟨⟨u, hash⟩, hmem, hu⟩ := List.mem_map.mp hin
  simp only at hu
  subst hu
  have hval := assignAll_mem _ PasswordMap.empty hnd u hash hmem
  rw [← hmeq, hm] at hval
  obtain ⟨raw, hraw, he⟩ := List.mem_filterMap.mp hmem
  exact ⟨raw, hash, hraw, he, by simpa using hval⟩

/-- Claim C19: invariant of every store a successful `loadPasswords` returns.
Each user name is not empty, contains no white-space character and does not
begin with `#`; each stored hash is not empty and is the bytes of a field that
contains no white space.  Consequently `checkUserPassword` on that store fails
for every password when the user name is empty, contains white space or begins
with `#`. -/
theorem load_store_invariant (src : GoString) (m : PasswordMap)
    (h : loadPasswords src = (some m, none)) :
    (∀ user hb, m user = some hb →
        user ≠ [] ∧ (∀ c ∈ user, IsSpace c = false) ∧ user.head? ≠ some '#' ∧
          hb ≠ [] ∧ ∃ hash, hb = toBytes hash ∧ hash ≠ [] ∧ ∀ c ∈ hash, IsSpace c = false) ∧
      ∀ (cmp : Bytes → Bytes → Option String) (file user pass : GoString),
        (user = [] ∨ (∃ c ∈ user, IsSpace c = true) ∨ user.head? = some '#') →
          (checkUserPassword cmp ⟨file, some m⟩ user pass).err = some (.noSuchUser user) := by
  have hinv : ∀ user hb, m user = some hb →
      user ≠ [] ∧ (∀ c ∈ user, IsSpace c = false) ∧ user.head? ≠ some '#' ∧
        hb ≠ [] ∧ ∃ hash, hb = toBytes hash ∧ hash ≠ [] ∧ ∀ c ∈ hash, IsSpace c = false := by
    intro user hb hm
    obtain ⟨raw, hash, _, he, hbytes⟩ := loadPasswords_entries src m h user hb hm
    obtain ⟨h1, h2, h3, h4, h5⟩ := entry?_shape raw user hash he
    exact ⟨h1, h2, h3, hbytes ▸ toBytes_ne_nil hash h4, hash, hbytes, h4, h5⟩
  refine ⟨hinv, ?_⟩
  intro cmp file user pass hbad
  have hnone : m user = none := by
    cases hm : m user with
    | none => rfl
    | some hb =>
      obtain ⟨h1, h2, h3, _⟩ := hinv user hb hm
      rcases hbad with h0 | ⟨c, hc, hsp⟩ | hhash
      · exact absurd h0 h1
      · rw [h2 c hc] at hsp
        exact absurd hsp (by simp)
      · exact absurd hhash h3
  simp [checkUserPassword, lookup, hnone]

set_option maxRecDepth 100000 in
/-- Witness for claim C19: the store of `TestCheck`; the empty user name of
`TestCheck` fails, and so do `user 1` and `#user1`, under an oracle that accepts
everything. -/
theorem load_store_invariant_witness :
    (loadPasswords srcCheck).2 = none ∧
      (checkUserPassword acceptAll baCheck [] []).err = some (.noSuchUser []) ∧
      (checkUserPassword acceptAll baCheck "user 1".toList []).err
        = some (.noSuchUser "user 1".toList) ∧
      (checkUserPassword acceptAll baCheck "#user1".toList []).err
        = some (.noSuchUser "#user1".toList) := by
  have hok : (loadPasswords srcCheck).2 = none := by decide
  obtain ⟨m, hm⟩ : ∃ m, loadPasswords srcCheck = (some m, none) := by
    obtain ⟨hfit, hwf, hnd⟩ := loadPasswords_ok_inv srcCheck hok
    exact ⟨_, loadPasswords_success srcCheck hfit hwf hnd⟩
  have h := (load_store_invariant srcCheck m hm).2
  have hba : baCheck = ⟨[], some m⟩ := by
    unfold baCheck
    rw [hm]
  rw [hba]
  exact ⟨hok, h acceptAll [] [] [] (Or.inl rfl),
    h acceptAll [] "user 1".toList [] (Or.inr (Or.inl ⟨' ', by decide, by decide⟩)),
    h acceptAll [] "#user1".toList [] (Or.inr (Or.inr (by decide)))⟩

/-! ## Lemmas on reordering lines -/

theorem entries_nonComments (pieces : List GoString) :
    entries (nonComments pieces) = entries pieces := by
  induction pieces with
  | nil => rfl
  | cons raw tail ih =>
    by_cases hc : isComment raw = true
    · have he : entry? raw = none := by simp [entry?, hc]
      have hf : nonComments (raw :: tail) = nonComments tail := by
        simp [nonComments, List.filter_cons, hc]
      rw [hf, ih, entries_cons_none raw tail he]
    · have hf : nonComments (raw :: tail) = raw :: nonComments tail := by
        simp [nonComments, List.filter_cons, hc]
      rw [hf]
      cases he : entry? raw with
      | none => rw [entries_cons_none _ _ he, entries_cons_none _ _ he, ih]
      | some e => rw [entries_cons_some _ _ _ he, entries_cons_some _ _ _ he, ih]

theorem mem_nonComments (pieces : List GoString) (raw : GoString) :
    raw ∈ nonComments pieces ↔ raw ∈ pieces ∧ isComment raw = false := by
  simp [nonComments, List.mem_filter]

/-- The three conditions under which a load succeeds. -/
theorem loadPasswords_ok_iff (src : GoString) :
    (loadPasswords src).2 = none ↔
      (∀ raw ∈ splitNewline src, fits raw) ∧ (∀ raw ∈ splitNewline src, wellFormed raw) ∧
        (users (splitNewline src)).Nodup := by
  constructor
  · exact loadPasswords_ok_inv src
  · rintro ⟨hfit, hwf, hnd⟩
    rw [loadPasswords_success src hfit hwf hnd]

/-- The conditions of a successful load pass from one list of lines to another
with the same non-comment lines up to order, when the comments of the second
fit the scanner. -/
theorem ok_of_perm (p1 p2 : List GoString)
    (hc2 : ∀ raw ∈ p2, isComment raw = true → fits raw)
    (hperm : (nonComments p1).Perm (nonComments p2))
    (hfit : ∀ raw ∈ p1, fits raw) (hwf : ∀ raw ∈ p1, wellFormed raw)
    (hnd : (users p1).Nodup) :
    (∀ raw ∈ p2, fits raw) ∧ (∀ raw ∈ p2, wellFormed raw) ∧ (users p2).Nodup ∧
      (entries p1).Perm (entries p2) := by
  have hmem : ∀ raw, raw ∈ p2 → isComment raw = false → raw ∈ p1 := by
    intro raw hraw hc
    have h2 : raw ∈ nonComments p2 := (mem_nonComments p2 raw).mpr ⟨hraw, hc⟩
    exact ((mem_nonComments p1 raw).mp (hperm.mem_iff.mpr h2)).1
  have hent : (entries p1).Perm (entries p2) := by
    rw [← entries_nonComments p1, ← entries_nonComments p2]
    exact hperm.filterMap entry?
  refine ⟨?_, ?_, ?_, hent⟩
  · intro raw hraw
    by_cases hc : isComment raw = true
    · exact hc2 raw hraw hc
    · exact hfit raw (hmem raw hraw (by simpa using hc))
  · intro raw hraw
    by_cases hc : isComment raw = true
    · exact Or.inl hc
    · exact hwf raw (hmem raw hraw (by simpa using hc))
  · exact ((hent.map Prod.fst).nodup_iff).mp hnd

theorem assignAll_perm (es1 es2 : List (GoString × GoString)) (hperm : es1.Perm es2)
    (hnd : (es1.map Prod.fst).Nodup) :
    assignAll es1 PasswordMap.empty = assignAll es2 PasswordMap.empty := by
  have hnd2 : (es2.map Prod.fst).Nodup := ((hperm.map Prod.fst).nodup_iff).mp hnd
  funext k
  by_cases hk : k ∈ es1.map Prod.fst
  · obtain ⟨⟨u, hash⟩, hmem, hu⟩ := List.mem_map.mp hk
    simp only at hu
    subst hu
    rw [assignAll_mem es1 _ hnd u hash hmem,
      assignAll_mem es2 _ hnd2 u hash (hperm.mem_iff.mp hmem)]
  · have hk2 : k ∉ es2.map Prod.fst := fun h => hk ((hperm.map Prod.fst).mem_iff.mpr h)
    rw [assignAll_not_mem es1 _ k hk, assignAll_not_mem es2 _ k hk2]

/-- Claim C20, as stated, fails: the empty source and the source that is one
comment line of 100000 bytes have the same (empty) sequence of non-comment
lines, yet the first loads and the second is refused with a read error. -/
theorem load_permutation_long_comment_fails :
    (nonComments (splitNewline [])).Perm (nonComments (splitNewline srcLongComment)) ∧
      (loadPasswords []).2 = none ∧
      (loadPasswords srcLongComment).2 = some "read error: bufio.Scanner: token too long" := by
  obtain ⟨hnl, hcom, _, hlen⟩ := long_comment_line 99999 'c' (by decide) (by decide)
  have hsplit : splitNewline srcLongComment = [] ++ ('#' :: List.replicate 99999 'c') :: [] :=
    splitNewline_last _ (by exact List.cons_ne_nil _ _) hnl
  generalize ('#' :: List.replicate 99999 'c') = long at hnl hcom hlen hsplit
  have hlong : ¬ fits long := by
    unfold fits MaxScanTokenSize
    omega
  refine ⟨?_, by decide, ?_⟩
  · rw [hsplit]
    simp [nonComments, splitNewline, hcom]
  · rw [loadPasswords_tooLong _ [] _ _ hsplit (by simp) (by simp) (by simp [users, entries])
      hlong]
    rfl

/-- Claim C20, amended: for any two sources whose comment lines are all shorter
than 65536 bytes and whose sequences of non-comment lines are permutations of
each other (comment lines may be inserted, removed or moved freely), either both
loads fail or both succeed with equal stores. -/
theorem load_permutation (src1 src2 : GoString)
    (hc1 : ∀ raw ∈ splitNewline src1, isComment raw = true → fits raw)
    (hc2 : ∀ raw ∈ splitNewline src2, isComment raw = true → fits raw)
    (hperm : (nonComments (splitNewline src1)).Perm (nonComments (splitNewline src2))) :
    ((loadPasswords src1).2 = none ↔ (loadPasswords src2).2 = none) ∧
      (loadPasswords src1).1 = (loadPasswords src2).1 := by
  by_cases h1 : (loadPasswords src1).2 = none
  · obtain ⟨hfit, hwf, hnd⟩ := loadPasswords_ok_inv src1 h1
    obtain ⟨hfit2, hwf2, hnd2, hent⟩ := ok_of_perm _ _ hc2 hperm hfit hwf hnd
    rw [loadPasswords_success src1 hfit hwf hnd, loadPasswords_success src2 hfit2 hwf2 hnd2]
    exact ⟨by simp, by simp [assignAll_perm _ _ hent hnd]⟩
  · have h2 : (loadPasswords src2).2 ≠ none := by
      intro h2
      obtain ⟨hfit, hwf, hnd⟩ := loadPasswords_ok_inv src2 h2
      obtain ⟨hfit1, hwf1, hnd1, _⟩ := ok_of_perm _ _ hc1 hperm.symm hfit hwf hnd
      exact h1 ((loadPasswords_ok_iff src1).mpr ⟨hfit1, hwf1, hnd1⟩)
    rw [loadPasswords_error_nil src1 h1, loadPasswords_error_nil src2 h2]
    exact ⟨by simp [h1, h2], rfl⟩

set_option maxRecDepth 100000 in
/-- Witness for claim C20: two users in either order, with different comments
around them; both loads succeed and `user1` has the same hash in both. -/
theorem load_permutation_witness :
    (nonComments (splitNewline "# c\nuser1 x\nuser2 y\n".toList)).Perm
        (nonComments (splitNewline "user2 y\n# d\n# e\nuser1 x".toList)) ∧
      ((loadPasswords "# c\nuser1 x\nuser2 y\n".toList).2 = none ↔
        (loadPasswords "user2 y\n# d\n# e\nuser1 x".toList).2 = none) ∧
      (loadPasswords "# c\nuser1 x\nuser2 y\n".toList).1
        = (loadPasswords "user2 y\n# d\n# e\nuser1 x".toList).1 ∧
      (loadPasswords "user2 y\n# d\n# e\nuser1 x".toList).2 = none ∧
      lookup (loadPasswords "user2 y\n# d\n# e\nuser1 x".toList).1 "user1".toList
        = some (toBytes "x".toList) :=
  have hperm : (nonComments (splitNewline "# c\nuser1 x\nuser2 y\n".toList)).Perm
      (nonComments (splitNewline "user2 y\n# d\n# e\nuser1 x".toList)) := by decide
  have h := load_permutation "# c\nuser1 x\nuser2 y\n".toList
    "user2 y\n# d\n# e\nuser1 x".toList (by decide) (by decide) hperm
  ⟨hperm, h.1, h.2, by decide, by decide⟩

end httpbasicauth
